import Mathlib

/-!
Verification of `azure_sb_tool.py` (connection-string parsing, queue
resolution, and the message/body rendering pipeline) against its
natural-language specification.

Python strings are modelled as `List Char`, byte strings as `List Nat`
(each entry `< 256`), fallible code as `Option`/`Except`.  The external
standard-library collaborators the script calls (`str.strip`, `str.split`,
`json.loads`/`json.dumps`, `base64.b64encode`, `bytes.decode("utf-8")`)
are modelled concretely below, following their documented behaviour.
-/

/-! ## Python string primitives -/

/-- Characters removed by Python `str.strip()` (ASCII whitespace). -/
def pyWs (c : Char) : Bool :=
  c = ' ' || c = '\t' || c = '\n' || c = '\r' || c = '\x0b' || c = '\x0c'

/-- Leading part of `str.strip()`. -/
def stripLead (l : List Char) : List Char := l.dropWhile pyWs

/-- Trailing part of `str.strip()`. -/
def stripTrail (l : List Char) : List Char := (l.reverse.dropWhile pyWs).reverse

/-- Python `str.strip()`. -/
def pyStrip (l : List Char) : List Char := stripTrail (stripLead l)

/-- Auxiliary for `str.split(';')`: current segment and remaining segments. -/
def splitSemiAux : List Char → List Char × List (List Char)
  | [] => ([], [])
  | c :: rest =>
    let (s, ss) := splitSemiAux rest
    if c = ';' then ([], s :: ss) else (c :: s, ss)

/-- Python `str.split(';')`: split on every semicolon, keeping empty pieces
    (the caller filters them out, as the source's comprehension does). -/
def splitSemi (l : List Char) : List (List Char) :=
  (splitSemiAux l).1 :: (splitSemiAux l).2

/-! ## `parse_connection_string` (azure_sb_tool.py lines 22-36) -/

/-- The non-empty `;`-separated segments of the stripped connection string:
    `[p for p in cs.strip().split(';') if p]`. -/
def segments (cs : List Char) : List (List Char) :=
  (splitSemi (pyStrip cs)).filter (fun p => !p.isEmpty)

/-- Key of a segment: `kv.split('=', 1)[0].strip()`. -/
def keyOfSeg (kv : List Char) : List Char := pyStrip (kv.takeWhile (fun c => c != '='))

/-- Value of a segment: `kv.split('=', 1)[1].strip()`. -/
def valOfSeg (kv : List Char) : List Char :=
  pyStrip ((kv.dropWhile (fun c => c != '=')).drop 1)

/-- One loop iteration of the parser: segments with no `=` are skipped
    (`continue`), the rest produce a key/value pair. -/
def pairOfSeg (kv : List Char) : Option (List Char × List Char) :=
  if kv.contains '=' then some (keyOfSeg kv, valOfSeg kv) else none

/-- All key/value pairs collected into `parts`, in segment order. -/
def segPairs (cs : List Char) : List (List Char × List Char) :=
  (segments cs).filterMap pairOfSeg

/-- Lookup in the `parts` dict: the last assignment to a key wins, as in a
    Python dict filled by iterated assignment. -/
def lookupLast (ps : List (List Char × List Char)) (key : List Char) : Option (List Char) :=
  match ps with
  | [] => none
  | (k, v) :: rest =>
    match lookupLast rest key with
    | some r => some r
    | none => if k = key then some v else none

def endpointKey : List Char := "Endpoint".toList
def saknKey : List Char := "SharedAccessKeyName".toList
def sakKey : List Char := "SharedAccessKey".toList
def entityPathKey : List Char := "EntityPath".toList

/-- The three required keys, in the order the source checks them. -/
def requiredKeys : List (List Char) := [endpointKey, saknKey, sakKey]

/-- Message of the `ValueError` raised for a missing required part. -/
def missingMsg (r : List Char) : List Char :=
  "Connection string missing required part: ".toList ++ r

/-- The reconstructed namespace-level connection string (fixed key order). -/
def namespaceCs (e n k : List Char) : List Char :=
  "Endpoint=".toList ++ e ++ ";SharedAccessKeyName=".toList ++ n
    ++ ";SharedAccessKey=".toList ++ k

/-- `parse_connection_string`: returns the namespace string (without
    `EntityPath`) and the optional entity path, or the `ValueError` message. -/
def parse_connection_string (cs : List Char) :
    Except (List Char) (List Char × Option (List Char)) :=
  match lookupLast (segPairs cs) endpointKey with
  | none => .error (missingMsg endpointKey)
  | some e =>
    match lookupLast (segPairs cs) saknKey with
    | none => .error (missingMsg saknKey)
    | some n =>
      match lookupLast (segPairs cs) sakKey with
      | none => .error (missingMsg sakKey)
      | some k => .ok (namespaceCs e n k, lookupLast (segPairs cs) entityPathKey)

/-! ## Queue resolution and CLI startup (azure_sb_tool.py lines 155-164) -/

/-- Python truthiness of an optional string (`None` and `""` are falsy). -/
def pyTruthyStr : Option (List Char) → Bool
  | none => false
  | some s => !s.isEmpty

/-- Python `a or b` on optional strings. -/
def pyOrStr (a b : Option (List Char)) : Option (List Char) :=
  if pyTruthyStr a then a else b

/-- `queue_name = args.queue or entity` followed by the
    `if not queue_name` guard: `none` means the guard fires. -/
def resolveQueue (queueFlag entity : Option (List Char)) : Option (List Char) :=
  match pyOrStr queueFlag entity with
  | none => none
  | some q => if q.isEmpty then none else some q

/-- Outcome of `main` up to the point where a client session would open. -/
inductive CliStart where
  | exit2 (stderrLine : List Char)
  | proceed (namespaceCs : List Char) (queueName : List Char)
deriving DecidableEq

def noQueueMsg : List Char :=
  "[error] No queue name provided. Pass --queue or include EntityPath in the connection string.".toList

def invalidCsMsg (e : List Char) : List Char :=
  "[error] Invalid connection string: ".toList ++ e

/-- `main` lines 155-164: parse the connection string (exit 2 on failure,
    printing the error), resolve the queue name (exit 2 when absent). -/
def cliStartup (connection_string : List Char) (queueFlag : Option (List Char)) : CliStart :=
  match parse_connection_string connection_string with
  | .error e => .exit2 (invalidCsMsg e)
  | .ok (ns, entity) =>
    match resolveQueue queueFlag entity with
    | none => .exit2 noQueueMsg
    | some q => .proceed ns q

/-- Exit code of a startup outcome (`sys.exit(2)` on either failure path). -/
def CliStart.exitCode : CliStart → Nat
  | .exit2 _ => 2
  | .proceed _ _ => 0

/-! ## Byte-level collaborators: UTF-8 decoding and base64 -/

/-- Strict UTF-8 decoding, as `bytes.decode("utf-8")`: continuation bytes are
    checked, overlong encodings, surrogates and values above U+10FFFF are
    rejected. -/
def utf8Decode : List Nat → Option (List Char)
  | [] => some []
  | b1 :: t1 =>
    if b1 < 0x80 then (utf8Decode t1).map (fun s => Char.ofNat b1 :: s)
    else if b1 < 0xC2 then none
    else
      match t1 with
      | [] => none
      | b2 :: t2 =>
        if b1 < 0xE0 then
          if 0x80 ≤ b2 ∧ b2 < 0xC0 then
            (utf8Decode t2).map (fun s =>
              Char.ofNat ((b1 - 0xC0) * 0x40 + (b2 - 0x80)) :: s)
          else none
        else
          match t2 with
          | [] => none
          | b3 :: t3 =>
            if b1 < 0xF0 then
              if (if b1 = 0xE0 then 0xA0 ≤ b2 ∧ b2 < 0xC0
                  else if b1 = 0xED then 0x80 ≤ b2 ∧ b2 < 0xA0
                  else 0x80 ≤ b2 ∧ b2 < 0xC0) ∧ 0x80 ≤ b3 ∧ b3 < 0xC0 then
                (utf8Decode t3).map (fun s =>
                  Char.ofNat ((b1 - 0xE0) * 0x1000 + (b2 - 0x80) * 0x40 + (b3 - 0x80)) :: s)
              else none
            else
              match t3 with
              | [] => none
              | b4 :: t4 =>
                if b1 < 0xF5 then
                  if (if b1 = 0xF0 then 0x90 ≤ b2 ∧ b2 < 0xC0
                      else if b1 = 0xF4 then 0x80 ≤ b2 ∧ b2 < 0x90
                      else 0x80 ≤ b2 ∧ b2 < 0xC0)
                      ∧ 0x80 ≤ b3 ∧ b3 < 0xC0 ∧ 0x80 ≤ b4 ∧ b4 < 0xC0 then
                    (utf8Decode t4).map (fun s =>
                      Char.ofNat ((b1 - 0xF0) * 0x40000 + (b2 - 0x80) * 0x1000
                        + (b3 - 0x80) * 0x40 + (b4 - 0x80)) :: s)
                  else none
                else none

/-- The standard base64 alphabet, as `base64.b64encode` uses it. -/
def b64Alphabet : List Char :=
  "ABCDEFGHIJKLMNOPQRSTUVWXYZabcdefghijklmnopqrstuvwxyz0123456789+/".toList

def b64CharOf (x : Nat) : Char := b64Alphabet.getD x 'A'

def b64ValOf (c : Char) : Option Nat := b64Alphabet.findIdx? (fun a => a = c)

/-- `base64.b64encode`: three bytes into four alphabet characters, with `=`
    padding for a final group of one or two bytes. -/
def b64encode : List Nat → List Char
  | a :: b :: c :: rest =>
    b64CharOf (a / 4) :: b64CharOf (a % 4 * 16 + b / 16)
      :: b64CharOf (b % 16 * 4 + c / 64) :: b64CharOf (c % 64) :: b64encode rest
  | [a, b] => [b64CharOf (a / 4), b64CharOf (a % 4 * 16 + b / 16), b64CharOf (b % 16 * 4), '=']
  | [a] => [b64CharOf (a / 4), b64CharOf (a % 4 * 16), '=', '=']
  | [] => []

/-- Standard base64 decoding: complete groups of four characters, the last of
    which may carry `=` padding. -/
def b64decode : List Char → Option (List Nat)
  | [] => some []
  | c1 :: c2 :: c3 :: c4 :: rest =>
    match b64ValOf c1, b64ValOf c2 with
    | some x1, some x2 =>
      if c3 = '=' then
        if c4 = '=' ∧ rest = [] then some [x1 * 4 + x2 / 16] else none
      else
        match b64ValOf c3 with
        | some x3 =>
          if c4 = '=' then
            if rest = [] then some [x1 * 4 + x2 / 16, x2 % 16 * 16 + x3 / 4] else none
          else
            match b64ValOf c4 with
            | some x4 =>
              (b64decode rest).map (fun bs =>
                (x1 * 4 + x2 / 16) :: (x2 % 16 * 16 + x3 / 4) :: (x3 % 4 * 64 + x4) :: bs)
            | none => none
        | none => none
    | _, _ => none
  | _ => none

/-! ## The JSON collaborator: `json.loads` / `json.dumps(obj, indent=2,
    ensure_ascii=False)` -/

/-- A JSON value as produced by `json.loads`.  Numbers are modelled as exact
    canonical decimals `mantissa × 10^exponent` (`loads` really rounds
    non-integral literals to binary64; the model idealises that rounding as
    exact, which the parse/serialise round trip never observes), so an `int`
    and the numerically equal `float` share one representative, as Python
    `==` identifies them. -/
inductive Json where
  | jnull
  | jbool (b : Bool)
  | jnum (m : Int) (e : Int)
  | jstr (s : List Char)
  | jarr (elems : List Json)
  | jobj (members : List (List Char × Json))

/-- JSON whitespace, as skipped by Python's scanner. -/
def jsonWs (c : Char) : Bool := c = ' ' || c = '\t' || c = '\n' || c = '\r'

def skipJsonWs : List Char → List Char
  | c :: r => if jsonWs c then skipJsonWs r else c :: r
  | [] => []

def isDigitCh (c : Char) : Bool := '0' ≤ c && c ≤ '9'

def digitsToNat (ds : List Char) : Nat :=
  ds.foldl (fun a c => a * 10 + (c.toNat - 48)) 0

/-- Move factors of ten from the mantissa into the exponent (fuelled). -/
def shift10 : Nat → Int → Int → Int × Int
  | 0, m, e => (m, e)
  | f + 1, m, e => if m % 10 = 0 then shift10 f (m / 10) (e + 1) else (m, e)

/-- Canonical representative of the decimal `m × 10^e`: zero is `(0, 0)`,
    otherwise the mantissa is freed of trailing-zero factors. -/
def canonNum (m e : Int) : Int × Int :=
  if m = 0 then (0, 0) else shift10 m.natAbs m e

instance : Inhabited Json := ⟨Json.jnull⟩

/-- Optional leading minus sign of a number literal. -/
def parseNegSign : List Char → Bool × List Char
  | [] => (false, [])
  | c :: r => if c = '-' then (true, r) else (false, c :: r)

/-- The integer part `0|[1-9][0-9]*` of Python's number grammar: a lone zero,
    or a nonzero digit followed greedily by digits. -/
def parseIntPart : List Char → Option (List Char × List Char)
  | [] => none
  | c :: r =>
    if isDigitCh c then
      if c = '0' then some (['0'], r)
      else some (c :: r.takeWhile isDigitCh, r.dropWhile isDigitCh)
    else none

/-- The optional fraction `(\.[0-9]+)?`: consumed only when at least one
    digit follows the point. -/
def parseFracPart : List Char → List Char × List Char
  | [] => ([], [])
  | c :: r2 =>
    if c = '.' then
      if (r2.takeWhile isDigitCh).isEmpty then ([], c :: r2)
      else (r2.takeWhile isDigitCh, r2.dropWhile isDigitCh)
    else ([], c :: r2)

/-- The optional exponent `([eE][-+]?[0-9]+)?`: consumed only when complete. -/
def parseExpPart : List Char → Int × List Char
  | [] => (0, [])
  | c :: r2 =>
    if c = 'e' ∨ c = 'E' then
      match r2 with
      | [] => (0, c :: r2)
      | d :: r3 =>
        if d = '+' then
          if (r3.takeWhile isDigitCh).isEmpty then ((0 : Int), c :: r2)
          else ((digitsToNat (r3.takeWhile isDigitCh) : Int), r3.dropWhile isDigitCh)
        else if d = '-' then
          if (r3.takeWhile isDigitCh).isEmpty then ((0 : Int), c :: r2)
          else (-(digitsToNat (r3.takeWhile isDigitCh) : Int), r3.dropWhile isDigitCh)
        else
          if ((d :: r3).takeWhile isDigitCh).isEmpty then ((0 : Int), c :: r2)
          else ((digitsToNat ((d :: r3).takeWhile isDigitCh) : Int),
            (d :: r3).dropWhile isDigitCh)
    else (0, c :: r2)

/-- Python's number grammar `-?(0|[1-9][0-9]*)(\.[0-9]+)?([eE][-+]?[0-9]+)?`,
    greedy, leaving whatever cannot extend the match unconsumed; the exact
    decimal value is put in canonical form. -/
def parseJsonNum (s : List Char) : Option (Json × List Char) :=
  match parseIntPart (parseNegSign s).2 with
  | none => none
  | some p =>
    let fr := parseFracPart p.2
    let ex := parseExpPart fr.2
    let m0 : Int := (if (parseNegSign s).1 then -1 else 1)
      * ((digitsToNat p.1 : Int) * (10 : Int) ^ fr.1.length + (digitsToNat fr.1 : Int))
    some (.jnum (canonNum m0 (ex.1 - fr.1.length)).1 (canonNum m0 (ex.1 - fr.1.length)).2,
          ex.2)

def hexDigVal (c : Char) : Option Nat :=
  if '0' ≤ c ∧ c ≤ '9' then some (c.toNat - 48)
  else if 'a' ≤ c ∧ c ≤ 'f' then some (c.toNat - 87)
  else if 'A' ≤ c ∧ c ≤ 'F' then some (c.toNat - 55)
  else none

def simpleEsc (c : Char) : Option Char :=
  if c = '"' then some '"'
  else if c = '\\' then some '\\'
  else if c = '/' then some '/'
  else if c = 'b' then some '\x08'
  else if c = 'f' then some '\x0c'
  else if c = 'n' then some '\n'
  else if c = 'r' then some '\r'
  else if c = 't' then some '\t'
  else none

/-- Decode one `\uXXXX` escape after the `\u`, combining a well-formed
    surrogate pair into its coded scalar value (a second `\uXXXX` follows in
    that case); the remainder is returned with a length certificate for
    termination of `parseJsonStr`. -/
def parseJsonUEsc (s : List Char) : Option (Char × {r : List Char // r.length ≤ s.length}) :=
  match s with
  | h1 :: h2 :: h3 :: h4 :: r3 =>
    match hexDigVal h1, hexDigVal h2, hexDigVal h3, hexDigVal h4 with
    | some v1, some v2, some v3, some v4 =>
      let v := ((v1 * 16 + v2) * 16 + v3) * 16 + v4
      if v < 0xD800 ∨ 0xE000 ≤ v then
        some (Char.ofNat v, ⟨r3, by simp only [List.length_cons]; omega⟩)
      else if v < 0xDC00 then
        match r3 with
        | '\\' :: 'u' :: g1 :: g2 :: g3 :: g4 :: r4 =>
          match hexDigVal g1, hexDigVal g2, hexDigVal g3, hexDigVal g4 with
          | some w1, some w2, some w3, some w4 =>
            let w := ((w1 * 16 + w2) * 16 + w3) * 16 + w4
            if 0xDC00 ≤ w ∧ w < 0xE000 then
              some (Char.ofNat (0x10000 + (v - 0xD800) * 0x400 + (w - 0xDC00)),
                ⟨r4, by simp only [List.length_cons]; omega⟩)
            else none
          | _, _, _, _ => none
        | _ => none
      else none
    | _, _, _, _ => none
  | _ => none

/-- Parse a JSON string body after its opening quote (strict mode: raw
    control characters are rejected; `\uXXXX` escapes combine well-formed
    surrogate pairs into the coded scalar value). -/
def parseJsonStr : List Char → Option (List Char × List Char)
  | [] => none
  | c :: r =>
    if c = '"' then some ([], r)
    else if c = '\\' then
      match r with
      | [] => none
      | e :: r2 =>
        if e = 'u' then
          match parseJsonUEsc r2 with
          | some (ch, r3) => (parseJsonStr r3.1).map (fun p => (ch :: p.1, p.2))
          | none => none
        else
          match simpleEsc e with
          | some ch => (parseJsonStr r2).map (fun p => (ch :: p.1, p.2))
          | none => none
    else if c.toNat < 0x20 then none
    else (parseJsonStr r).map (fun p => (c :: p.1, p.2))
termination_by s => s.length
decreasing_by
  all_goals simp only [List.length_cons]
  · have hb := r3.2
    omega
  · omega
  · omega

/-- Assignment into a Python dict: an existing key keeps its position and
    takes the new value, a new key is appended. -/
def dictInsert (d : List (List Char × Json)) (key : List Char) (v : Json) :
    List (List Char × Json) :=
  match d with
  | [] => [(key, v)]
  | (k0, v0) :: rest =>
    if k0 = key then (k0, v) :: rest else (k0, v0) :: dictInsert rest key v

/-- A Python dict built from a pair list by repeated assignment
    (duplicate keys: last value wins, first position is kept). -/
def dedupPairs (ps : List (List Char × Json)) : List (List Char × Json) :=
  ps.foldl (fun d kv => dictInsert d kv.1 kv.2) []

mutual

/-- One JSON value: fuelled recursive descent mirroring Python's scanner. -/
def parseJsonVal : Nat → List Char → Option (Json × List Char)
  | 0, _ => none
  | fuel + 1, s =>
    match skipJsonWs s with
    | 'n' :: 'u' :: 'l' :: 'l' :: r => some (.jnull, r)
    | 't' :: 'r' :: 'u' :: 'e' :: r => some (.jbool true, r)
    | 'f' :: 'a' :: 'l' :: 's' :: 'e' :: r => some (.jbool false, r)
    | '"' :: r => (parseJsonStr r).map (fun p => (.jstr p.1, p.2))
    | '[' :: r =>
      match skipJsonWs r with
      | ']' :: r2 => some (.jarr [], r2)
      | r2 => (parseJsonElems fuel r2).map (fun p => (.jarr p.1, p.2))
    | '{' :: r =>
      match skipJsonWs r with
      | '}' :: r2 => some (.jobj [], r2)
      | r2 => (parseJsonMembers fuel r2).map (fun p => (.jobj (dedupPairs p.1), p.2))
    | c :: r => if c = '-' ∨ isDigitCh c then parseJsonNum (c :: r) else none
    | [] => none

/-- One or more comma-separated array elements, up to the closing bracket. -/
def parseJsonElems : Nat → List Char → Option (List Json × List Char)
  | 0, _ => none
  | fuel + 1, s =>
    match parseJsonVal fuel s with
    | none => none
    | some (v, r) =>
      match skipJsonWs r with
      | ',' :: r2 => (parseJsonElems fuel (skipJsonWs r2)).map (fun p => (v :: p.1, p.2))
      | ']' :: r2 => some ([v], r2)
      | _ => none

/-- One or more `"key": value` members, up to the closing brace. -/
def parseJsonMembers : Nat → List Char → Option (List (List Char × Json) × List Char)
  | 0, _ => none
  | fuel + 1, s =>
    match skipJsonWs s with
    | '"' :: r =>
      match parseJsonStr r with
      | none => none
      | some (key, r1) =>
        match skipJsonWs r1 with
        | ':' :: r2 =>
          match parseJsonVal fuel (skipJsonWs r2) with
          | none => none
          | some (v, r3) =>
            match skipJsonWs r3 with
            | ',' :: r4 =>
              (parseJsonMembers fuel (skipJsonWs r4)).map (fun p => ((key, v) :: p.1, p.2))
            | '}' :: r4 => some ([(key, v)], r4)
            | _ => none
        | _ => none
    | _ => none

end

/-- `json.loads`: one document with only whitespace around it. -/
def jsonLoads (s : List Char) : Option Json :=
  match parseJsonVal (s.length + 1) s with
  | some (v, r) => if skipJsonWs r = [] then some v else none
  | none => none

/-! ### `json.dumps(obj, indent=2, ensure_ascii=False)` -/

def jIndent (n : Nat) : List Char := List.replicate n ' '

def hexDigCh (x : Nat) : Char :=
  if x < 10 then Char.ofNat (48 + x) else Char.ofNat (97 + (x - 10))

/-- `dumps` escaping under `ensure_ascii=False`: the quote, the backslash,
    and control characters only; everything else passes through raw. -/
def escJsonChar (c : Char) : List Char :=
  if c = '"' then ['\\', '"']
  else if c = '\\' then ['\\', '\\']
  else if c = '\n' then ['\\', 'n']
  else if c = '\t' then ['\\', 't']
  else if c = '\r' then ['\\', 'r']
  else if c = '\x08' then ['\\', 'b']
  else if c = '\x0c' then ['\\', 'f']
  else if c.toNat < 0x20 then
    ['\\', 'u', '0', '0', hexDigCh (c.toNat / 16), hexDigCh (c.toNat % 16)]
  else [c]

def dumpJsonStr (s : List Char) : List Char :=
  '"' :: ((s.map escJsonChar).flatten ++ ['"'])

/-- Decimal digit characters of `n`, most significant first (empty for 0). -/
def natDigsMSF (n : Nat) : List Char := ((Nat.digits 10 n).map Nat.digitChar).reverse

/-- Decimal digit characters of `n`, `"0"` for zero. -/
def natLit (n : Nat) : List Char := if n = 0 then ['0'] else natDigsMSF n

/-- Decimal rendering of the canonical `m × 10^e`: integer digits for
    `e ≥ 0`, otherwise a (zero-padded) decimal point placed `-e` digits from
    the right. -/
def dumpJsonNum (m e : Int) : List Char :=
  if 0 ≤ e then
    (if m < 0 then ['-'] else []) ++ natLit (m.natAbs * 10 ^ e.toNat)
  else
    let w := (-e).toNat
    let ds := natLit m.natAbs
    let padded := if ds.length ≤ w then List.replicate (w + 1 - ds.length) '0' ++ ds else ds
    (if m < 0 then ['-'] else [])
      ++ padded.take (padded.length - w) ++ '.' :: padded.drop (padded.length - w)

mutual

/-- `json.dumps(·, indent=2, ensure_ascii=False)` at indent level `ind`. -/
def dumpJsonVal (ind : Nat) : Json → List Char
  | .jnull => ['n', 'u', 'l', 'l']
  | .jbool true => ['t', 'r', 'u', 'e']
  | .jbool false => ['f', 'a', 'l', 's', 'e']
  | .jnum m e => dumpJsonNum m e
  | .jstr s => dumpJsonStr s
  | .jarr [] => ['[', ']']
  | .jarr (x :: xs) =>
    '[' :: '\n' :: (jIndent (ind + 2) ++ dumpJsonVal (ind + 2) x
      ++ dumpJsonElems (ind + 2) xs ++ '\n' :: (jIndent ind ++ [']']))
  | .jobj [] => ['\x7b', '\x7d']
  | .jobj (kv :: ms) =>
    '\x7b' :: '\n' :: (jIndent (ind + 2) ++ dumpJsonStr kv.1
      ++ ':' :: ' ' :: dumpJsonVal (ind + 2) kv.2
      ++ dumpJsonMembers (ind + 2) ms ++ '\n' :: (jIndent ind ++ ['\x7d']))

/-- Second and later array items: `",\n" ++ indent ++ item` each. -/
def dumpJsonElems (ind : Nat) : List Json → List Char
  | [] => []
  | x :: xs => ',' :: '\n' :: (jIndent ind ++ dumpJsonVal ind x ++ dumpJsonElems ind xs)

/-- Second and later object members: `",\n" ++ indent ++ key ++ ": " ++ value`. -/
def dumpJsonMembers (ind : Nat) : List (List Char × Json) → List Char
  | [] => []
  | kv :: ms => ',' :: '\n' :: (jIndent ind ++ dumpJsonStr kv.1 ++ ':' :: ' '
      :: dumpJsonVal ind kv.2 ++ dumpJsonMembers ind ms)

end

/-- `json.dumps(obj, indent=2, ensure_ascii=False)`. -/
def jsonDumps2 (v : Json) : List Char := dumpJsonVal 0 v

/-! ## Message rendering (`fmt_dt`, `to_jsonable`, `safe_body_to_str`,
    `print_message`, `peek_from_queue`) -/

def base64Tag : List Char := "base64:".toList

/-- `_bytes_to_text_or_b64` (lines 47-52): UTF-8 text when decodable, else
    marked base64. -/
def _bytes_to_text_or_b64 (b : List Nat) : List Char :=
  match utf8Decode b with
  | some s => s
  | none => base64Tag ++ b64encode b

/-- A `datetime` instance (UTC components as the script formats them). -/
structure PyDateTime where
  year : Nat
  month : Nat
  day : Nat
  hour : Nat
  minute : Nat
  second : Nat
deriving DecidableEq

def pad2 (n : Nat) : List Char := if n < 10 then '0' :: natLit n else natLit n

def pad4 (n : Nat) : List Char := List.replicate (4 - (natLit n).length) '0' ++ natLit n

/-- `fmt_dt` (lines 39-44) on a `datetime` instance (such values are always
    truthy, so the `if not dt` arm never fires for them, and the
    `isinstance` test succeeds): `dt.strftime('%Y-%m-%d %H:%M:%S UTC')`. -/
def fmt_dt (dt : PyDateTime) : List Char :=
  pad4 dt.year ++ '-' :: pad2 dt.month ++ '-' :: pad2 dt.day ++ ' ' :: pad2 dt.hour
    ++ ':' :: pad2 dt.minute ++ ':' :: pad2 dt.second ++ " UTC".toList

/-- Python values that can sit in the message-property fields.  (IEEE floats
    are outside the model; `vother` carries the `str()` rendering that the
    source's final fallback would produce for unknown types.) -/
inductive PyVal where
  | vnone
  | vbool (b : Bool)
  | vint (n : Int)
  | vstr (s : List Char)
  | vdt (dt : PyDateTime)
  | vbytes (b : List Nat)
  | vlist (l : List PyVal)
  | vtuple (l : List PyVal)
  | vset (l : List PyVal)
  | vdict (l : List (PyVal × PyVal))
  | vother (asStr : List Char)

/-- Python `str()` for the values that can be mapping keys in
    `application_properties`.  Bytes keys never reach `str` (the caller
    special-cases them) and containers are unhashable, hence not keys; both
    get a placeholder here for totality. -/
def pyStr : PyVal → List Char
  | .vnone => "None".toList
  | .vbool true => "True".toList
  | .vbool false => "False".toList
  | .vint n => (if n < 0 then ['-'] else []) ++ natLit n.natAbs
  | .vstr s => s
  | .vdt dt => pad4 dt.year ++ '-' :: pad2 dt.month ++ '-' :: pad2 dt.day ++ ' '
      :: pad2 dt.hour ++ ':' :: pad2 dt.minute ++ ':' :: pad2 dt.second
  | .vother s => s
  | _ => "<obj>".toList

/-- Key conversion in the dict arm of `to_jsonable` (lines 68-72): bytes keys
    through `_bytes_to_text_or_b64`, anything else through `str`. -/
def pyKeyStr : PyVal → List Char
  | .vbytes b => _bytes_to_text_or_b64 b
  | k => pyStr k

mutual

/-- `to_jsonable` (lines 55-78).  Scalars pass through; datetimes are
    formatted; bytes decode or fall back to base64; dicts recurse key by key
    (insertion order, duplicate converted keys resolved by dict assignment);
    lists, tuples and sets all become arrays (the model fixes one iteration
    order for a set); anything else stringifies. -/
def to_jsonable : PyVal → Json
  | .vnone => .jnull
  | .vbool b => .jbool b
  | .vint n => .jnum (canonNum n 0).1 (canonNum n 0).2
  | .vstr s => .jstr s
  | .vdt dt => .jstr (fmt_dt dt)
  | .vbytes b => .jstr (_bytes_to_text_or_b64 b)
  | .vlist l => .jarr (to_jsonableList l)
  | .vtuple l => .jarr (to_jsonableList l)
  | .vset l => .jarr (to_jsonableList l)
  | .vdict l => .jobj (dedupPairs (to_jsonableDict l))
  | .vother s => .jstr s

def to_jsonableList : List PyVal → List Json
  | [] => []
  | x :: xs => to_jsonable x :: to_jsonableList xs

def to_jsonableDict : List (PyVal × PyVal) → List (List Char × Json)
  | [] => []
  | (k, v) :: rest => (pyKeyStr k, to_jsonable v) :: to_jsonableDict rest

end

/-- Python truthiness of a property value. -/
def pyTruthy : PyVal → Bool
  | .vnone => false
  | .vbool b => b
  | .vint n => n ≠ 0
  | .vstr s => !s.isEmpty
  | .vdt _ => true
  | .vbytes b => !b.isEmpty
  | .vlist l => !l.isEmpty
  | .vtuple l => !l.isEmpty
  | .vset l => !l.isEmpty
  | .vdict l => !l.isEmpty
  | .vother _ => true

/-- Python `a or b`. -/
def pyOr (a b : PyVal) : PyVal := if pyTruthy a then a else b

/-- A peeked Service Bus message as the renderer sees it: the named optional
    attributes (`getattr(m, _, None)` makes an absent attribute and a `None`
    value indistinguishable, both are `vnone`), plus the body byte-chunk
    sequence, whose traversal may raise — modelled as `Except` carrying the
    exception text `str(e)`. -/
structure SBMessage where
  sequence_number : PyVal := .vnone
  enqueued_time_utc : PyVal := .vnone
  expires_at_utc : PyVal := .vnone
  locked_until_utc : PyVal := .vnone
  delivery_count : PyVal := .vnone
  content_type : PyVal := .vnone
  subject : PyVal := .vnone
  label : PyVal := .vnone
  message_id : PyVal := .vnone
  correlation_id : PyVal := .vnone
  «to» : PyVal := .vnone
  reply_to : PyVal := .vnone
  session_id : PyVal := .vnone
  partition_key : PyVal := .vnone
  dead_letter_reason : PyVal := .vnone
  dead_letter_error_description : PyVal := .vnone
  application_properties : PyVal := .vnone
  body : Except (List Char) (List (List Nat)) := .ok []

/-- The placeholder returned when reading the body raises (line 86). -/
def bodyErrTag (e : List Char) : List Char :=
  "<error reading body: ".toList ++ e ++ ['>']

/-- `safe_body_to_str` (lines 81-99): absorb a body-read failure into a
    placeholder; else decode UTF-8 and pretty-print embedded JSON, return the
    text verbatim when it is not JSON, or fall back to marked base64 when it
    is not UTF-8. -/
def safe_body_to_str (m : SBMessage) : List Char :=
  match m.body with
  | .error e => bodyErrTag e
  | .ok chunks =>
    match utf8Decode chunks.flatten with
    | none => base64Tag ++ b64encode chunks.flatten
    | some s =>
      match jsonLoads s with
      | some obj => jsonDumps2 obj
      | none => s

/-- The field list of the `props` dict (lines 103-120), in source order. -/
def propFields : List (List Char) :=
  ["sequence_number".toList, "enqueued_time_utc".toList, "expires_at_utc".toList,
   "locked_until_utc".toList, "delivery_count".toList, "content_type".toList,
   "subject/label".toList, "message_id".toList, "correlation_id".toList,
   "to".toList, "reply_to".toList, "session_id".toList, "partition_key".toList,
   "dead_letter_reason".toList, "dead_letter_error_description".toList,
   "application_properties".toList]

/-- The `props` dict literal (lines 103-120): each field name, in source
    order, paired with the attribute value (`subject/label` takes the
    truthiness-or of the two attributes). -/
def msgProps (m : SBMessage) : List (List Char × PyVal) :=
  [("sequence_number".toList, m.sequence_number),
   ("enqueued_time_utc".toList, m.enqueued_time_utc),
   ("expires_at_utc".toList, m.expires_at_utc),
   ("locked_until_utc".toList, m.locked_until_utc),
   ("delivery_count".toList, m.delivery_count),
   ("content_type".toList, m.content_type),
   ("subject/label".toList, pyOr m.subject m.label),
   ("message_id".toList, m.message_id),
   ("correlation_id".toList, m.correlation_id),
   ("to".toList, m.«to»),
   ("reply_to".toList, m.reply_to),
   ("session_id".toList, m.session_id),
   ("partition_key".toList, m.partition_key),
   ("dead_letter_reason".toList, m.dead_letter_reason),
   ("dead_letter_error_description".toList, m.dead_letter_error_description),
   ("application_properties".toList, m.application_properties)]

/-- `props_json = to_jsonable(props)` (line 122).  The dict arm of
    `to_jsonable` keeps the string keys (via `str`) in insertion order — the
    sixteen field names are distinct, so dict assignment never displaces an
    entry — and converts each value. -/
def propsJson (m : SBMessage) : List (List Char × Json) :=
  (msgProps m).map (fun kv => (kv.1, to_jsonable kv.2))

def Json.isNull : Json → Bool
  | .jnull => true
  | _ => false

/-- The printed property object (line 125):
    `{k: v for k, v in props_json.items() if v is not None}` — fields whose
    converted value is `None` are dropped, the rest keep their order. -/
def printedProps (m : SBMessage) : List (List Char × Json) :=
  (propsJson m).filter (fun kv => !kv.2.isNull)

/-- `print_message` (lines 102-127): banner, pretty-printed property object,
    body marker, rendered body — one output block per message. -/
def print_message (tag : List Char) (m : SBMessage) (idx : Nat) : List Char :=
  '\n' :: "=== ".toList ++ tag ++ " MESSAGE #".toList ++ natLit idx ++ " ===".toList
    ++ '\n' :: jsonDumps2 (.jobj (printedProps m))
    ++ '\n' :: "-- body --".toList
    ++ '\n' :: safe_body_to_str m ++ ['\n']

/-- `peek_from_queue` (lines 130-142): print every peeked message with its
    1-based index, and return the count of messages printed. -/
def peek_from_queue (tag : List Char) (msgs : List SBMessage) :
    List (List Char) × Nat :=
  ((msgs.enumFrom 1).map (fun p => print_message tag p.2 p.1), msgs.length)

/-- The peek loop under the exception semantics: an uncaught exception while
    rendering message `i` would abort the traversal and skip the rest.
    `print_message` is total — `safe_body_to_str` catches the body-read
    failure itself — so every iteration yields `ok`. -/
def peekLoopRun (tag : List Char) (msgs : List SBMessage) :
    Except (List Char) (List (List Char)) :=
  (msgs.enumFrom 1).mapM (fun p => Except.ok (print_message tag p.2 p.1))

/-! ## Well-formedness of parsed JSON, and a size measure for fuel bounds -/

mutual

/-- Fuel needed to re-parse a value: one unit per parser call. -/
def jsize : Json → Nat
  | .jnull => 1
  | .jbool _ => 1
  | .jnum _ _ => 1
  | .jstr _ => 1
  | .jarr l => 1 + jsizeL l
  | .jobj l => 1 + jsizeM l

def jsizeL : List Json → Nat
  | [] => 0
  | x :: xs => jsize x + 1 + jsizeL xs

def jsizeM : List (List Char × Json) → Nat
  | [] => 0
  | kv :: ms => jsize kv.2 + 1 + jsizeM ms

end

/-- The values `json.loads` can actually produce: numbers canonical, object
    keys without duplicates (dict construction collapses them). -/
inductive JsonWF : Json → Prop where
  | wfNull : JsonWF .jnull
  | wfBool (b : Bool) : JsonWF (.jbool b)
  | wfNum (m e : Int) : (m = 0 → e = 0) → (m ≠ 0 → m % 10 ≠ 0) → JsonWF (.jnum m e)
  | wfStr (s : List Char) : JsonWF (.jstr s)
  | wfArr (l : List Json) : (∀ x ∈ l, JsonWF x) → JsonWF (.jarr l)
  | wfObj (l : List (List Char × Json)) : (l.map Prod.fst).Nodup →
      (∀ kv ∈ l, JsonWF kv.2) → JsonWF (.jobj l)

/-- A remainder that cannot extend a rendered number: empty, or headed by
    something that is neither a digit nor `.`, `e`, `E`.  Every JSON
    delimiter and all whitespace qualify. -/
def jnumDelim : List Char → Bool
  | [] => true
  | c :: _ => !(isDigitCh c || c = '.' || c = 'e' || c = 'E')

/-! ## Helper lemmas about the string primitives -/


theorem splitSemiAux_append (a b : List Char) (ha : ';' ∉ a) :
    splitSemiAux (a ++ b) = (a ++ (splitSemiAux b).1, (splitSemiAux b).2) := by
  induction a with
  | nil => simp
  | cons c t ih =>
    have hc : c ≠ ';' := fun hc => ha (hc ▸ List.mem_cons_self c t)
    have ht : ';' ∉ t := fun hm => ha (List.mem_cons.mpr (Or.inr hm))
    simp only [List.cons_append, splitSemiAux, List.append_eq, ih ht, if_neg hc]

theorem splitSemiAux_no_semi (x : List Char) (hx : ';' ∉ x) :
    splitSemiAux x = (x, []) := by
  have := splitSemiAux_append x [] hx
  simpa [splitSemiAux] using this

theorem splitSemiAux_semi (b : List Char) :
    splitSemiAux (';' :: b) = ([], (splitSemiAux b).1 :: (splitSemiAux b).2) := by
  simp [splitSemiAux]

theorem mem_splitSemi_no_semi (l : List Char) :
    ∀ s, (s = (splitSemiAux l).1 ∨ s ∈ (splitSemiAux l).2) → ';' ∉ s := by
  induction l with
  | nil => intro s hs; rcases hs with h | h <;> simp [splitSemiAux] at h ⊢ <;> simp [h]
  | cons c rest ih =>
    intro s hs
    simp only [splitSemiAux] at hs
    by_cases hc : c = ';'
    · rw [if_pos hc] at hs
      rcases hs with h | h
      · simp [h]
      · rcases List.mem_cons.mp h with h1 | h1
        · exact ih s (Or.inl h1)
        · exact ih s (Or.inr h1)
    · rw [if_neg hc] at hs
      rcases hs with h | h
      · subst h
        intro hmem
        rcases List.mem_cons.mp hmem with h2 | h2
        · exact hc h2.symm
        · exact ih _ (Or.inl rfl) h2
      · exact ih s (Or.inr h)

theorem mem_splitSemi_no_semi' (l : List Char) :
    ∀ s ∈ splitSemi l, ';' ∉ s := by
  intro s hs
  unfold splitSemi at hs
  rcases List.mem_cons.mp hs with h | h
  · exact mem_splitSemi_no_semi l s (Or.inl h)
  · exact mem_splitSemi_no_semi l s (Or.inr h)

theorem head?_dropWhile_not (p : Char → Bool) (l : List Char) (c : Char)
    (h : (l.dropWhile p).head? = some c) : p c = false := by
  induction l with
  | nil => simp [List.dropWhile] at h
  | cons a t ih =>
    rw [List.dropWhile_cons] at h
    split at h
    · exact ih h
    · simp at h
      subst h
      simp_all

theorem dropWhile_head_false (p : Char → Bool) (l : List Char)
    (h : ∀ c, l.head? = some c → p c = false) : l.dropWhile p = l := by
  cases l with
  | nil => rfl
  | cons a t => rw [List.dropWhile_cons, if_neg (by simp [h a rfl])]

theorem stripTrail_getLast_not (y : List Char) (c : Char)
    (h : (stripTrail y).getLast? = some c) : pyWs c = false := by
  unfold stripTrail at h
  rw [← List.head?_reverse, List.reverse_reverse] at h
  exact head?_dropWhile_not pyWs y.reverse c h

theorem stripTrail_eq_self (y : List Char)
    (h : ∀ c, y.getLast? = some c → pyWs c = false) : stripTrail y = y := by
  unfold stripTrail
  rw [dropWhile_head_false pyWs y.reverse (fun c hc => h c (by rwa [List.head?_reverse] at hc))]
  exact List.reverse_reverse y

theorem stripTrail_prefix (y : List Char) : stripTrail y <+: y := by
  have h1 : y.reverse.dropWhile pyWs <:+ y.reverse := List.dropWhile_suffix pyWs
  have h2 := List.reverse_prefix.mpr h1
  simpa [stripTrail] using h2

theorem pyStrip_head_not (l : List Char) (c : Char) (t : List Char)
    (h : pyStrip l = c :: t) : pyWs c = false := by
  unfold pyStrip at h
  obtain ⟨r, hr⟩ := stripTrail_prefix (stripLead l)
  have hh : (stripLead l).head? = some c := by
    rw [← hr, h]; simp
  exact head?_dropWhile_not pyWs l c hh

theorem pyStrip_getLast_not (l : List Char) (c : Char)
    (h : (pyStrip l).getLast? = some c) : pyWs c = false :=
  stripTrail_getLast_not (stripLead l) c h

theorem stripLead_pyStrip (l : List Char) : stripLead (pyStrip l) = pyStrip l := by
  unfold stripLead
  apply dropWhile_head_false
  intro c hc
  cases hh : pyStrip l with
  | nil => rw [hh] at hc; simp at hc
  | cons a t =>
    rw [hh] at hc
    simp at hc
    subst hc
    exact pyStrip_head_not l _ t hh

theorem pyStrip_idem (l : List Char) : pyStrip (pyStrip l) = pyStrip l := by
  show stripTrail (stripLead (pyStrip l)) = pyStrip l
  rw [stripLead_pyStrip]
  apply stripTrail_eq_self
  intro c hc
  exact pyStrip_getLast_not l c hc

theorem mem_pyStrip (l : List Char) (c : Char) (h : c ∈ pyStrip l) : c ∈ l := by
  unfold pyStrip at h
  obtain ⟨r, hr⟩ := stripTrail_prefix (stripLead l)
  have h2 : c ∈ stripLead l := hr ▸ List.mem_append.mpr (Or.inl h)
  exact (List.dropWhile_suffix pyWs).subset h2

theorem lookupLast_mem (ps : List (List Char × List Char)) (key v : List Char)
    (h : lookupLast ps key = some v) : (key, v) ∈ ps := by
  induction ps with
  | nil => simp [lookupLast] at h
  | cons kv rest ih =>
    obtain ⟨k, w⟩ := kv
    simp only [lookupLast] at h
    match h2 : lookupLast rest key with
    | some r =>
      rw [h2] at h
      simp at h
      subst h
      exact List.mem_cons.mpr (Or.inr (ih h2))
    | none =>
      rw [h2] at h
      simp only at h
      split at h
      · simp at h
        simp_all
      · simp at h

/-- Every value stored in `parts` is semicolon-free and already stripped. -/
theorem segPairs_val_props (cs : List Char) (k v : List Char)
    (h : (k, v) ∈ segPairs cs) : ';' ∉ v ∧ pyStrip v = v := by
  unfold segPairs at h
  obtain ⟨seg, hseg, hpair⟩ := List.mem_filterMap.mp h
  unfold pairOfSeg at hpair
  split at hpair
  · simp only [Option.some.injEq, Prod.mk.injEq] at hpair
    obtain ⟨-, hv⟩ := hpair
    have hsub : ∀ c, c ∈ v → c ∈ seg := by
      intro c hc
      rw [← hv] at hc
      unfold valOfSeg at hc
      have h1 := mem_pyStrip _ _ hc
      have h2 := List.mem_of_mem_drop h1
      exact (List.dropWhile_suffix _).subset h2
    constructor
    · intro hsemi
      unfold segments at hseg
      have hm2 := (List.mem_filter.mp hseg).1
      exact mem_splitSemi_no_semi' _ seg hm2 (hsub ';' hsemi)
    · rw [← hv]
      unfold valOfSeg
      exact pyStrip_idem _
  · simp at hpair

theorem takeWhile_all_append (p : Char → Bool) (a b : List Char)
    (ha : ∀ c ∈ a, p c = true) : (a ++ b).takeWhile p = a ++ b.takeWhile p := by
  induction a with
  | nil => simp
  | cons c t ih =>
    have hc := ha c (List.mem_cons_self c t)
    simp only [List.cons_append, List.takeWhile_cons, hc, if_true]
    rw [ih (fun x hx => ha x (List.mem_cons.mpr (Or.inr hx)))]

theorem dropWhile_all_append (p : Char → Bool) (a b : List Char)
    (ha : ∀ c ∈ a, p c = true) : (a ++ b).dropWhile p = b.dropWhile p := by
  induction a with
  | nil => simp
  | cons c t ih =>
    have hc := ha c (List.mem_cons_self c t)
    simp only [List.cons_append, List.dropWhile_cons, hc, if_true]
    exact ih (fun x hx => ha x (List.mem_cons.mpr (Or.inr hx)))

/-- Re-splitting one `Key=value` segment, for a key without `=`, whitespace or
    `;`, and an already-stripped value, recovers exactly that pair. -/
theorem pairOfSeg_keyval (key v : List Char)
    (hkey : ∀ c ∈ key, (c != '=') = true)
    (hkeystrip : pyStrip key = key) (hvstrip : pyStrip v = v) :
    pairOfSeg (key ++ '=' :: v) = some (key, v) := by
  unfold pairOfSeg
  rw [if_pos (by simp)]
  unfold keyOfSeg valOfSeg
  rw [takeWhile_all_append _ _ _ hkey, dropWhile_all_append _ _ _ hkey]
  simp only [List.takeWhile_cons, List.dropWhile_cons]
  norm_num
  exact ⟨hkeystrip, hvstrip⟩

theorem pyStrip_eq_self_of (l : List Char)
    (hhead : ∀ c, l.head? = some c → pyWs c = false)
    (hlast : ∀ c, l.getLast? = some c → pyWs c = false) : pyStrip l = l := by
  show stripTrail (stripLead l) = l
  unfold stripLead
  rw [dropWhile_head_false pyWs l hhead]
  exact stripTrail_eq_self l hlast

/-- A value looked up from `parts` keeps its last character non-whitespace. -/
theorem stripped_getLast_not (v : List Char) (hv : pyStrip v = v) :
    ∀ c, v.getLast? = some c → pyWs c = false := by
  intro c hc
  exact pyStrip_getLast_not v c (by rwa [hv])

theorem getLast?_append_ne_nil (x z : List Char) (hz : z ≠ []) :
    (x ++ z).getLast? = z.getLast? :=
  List.getLast?_append_of_ne_nil x hz

/-- The namespace string re-splits into exactly its three segments. -/
theorem segments_namespaceCs (e n k : List Char)
    (he : ';' ∉ e) (hes : pyStrip e = e)
    (hn : ';' ∉ n) (hns : pyStrip n = n)
    (hk : ';' ∉ k) (hks : pyStrip k = k) :
    segments (namespaceCs e n k) =
      ["Endpoint=".toList ++ e, "SharedAccessKeyName=".toList ++ n,
       "SharedAccessKey=".toList ++ k] := by
  have hseg1 : ';' ∉ "Endpoint=".toList ++ e := by
    intro hmem
    rcases List.mem_append.mp hmem with h | h
    · revert h; decide
    · exact he h
  have hseg2 : ';' ∉ "SharedAccessKeyName=".toList ++ n := by
    intro hmem
    rcases List.mem_append.mp hmem with h | h
    · revert h; decide
    · exact hn h
  have hseg3 : ';' ∉ "SharedAccessKey=".toList ++ k := by
    intro hmem
    rcases List.mem_append.mp hmem with h | h
    · revert h; decide
    · exact hk h
  have hshape : namespaceCs e n k =
      ("Endpoint=".toList ++ e) ++ ';' :: (("SharedAccessKeyName=".toList ++ n)
        ++ ';' :: ("SharedAccessKey=".toList ++ k)) := by
    show ("Endpoint=".toList ++ e ++ ";SharedAccessKeyName=".toList ++ n
        ++ ";SharedAccessKey=".toList ++ k) = _
    have hB : ";SharedAccessKeyName=".toList = ';' :: "SharedAccessKeyName=".toList := rfl
    have hC : ";SharedAccessKey=".toList = ';' :: "SharedAccessKey=".toList := rfl
    rw [hB, hC]
    simp [List.append_assoc]
  have hstrip : pyStrip (namespaceCs e n k) = namespaceCs e n k := by
    apply pyStrip_eq_self_of
    · intro c hc
      rw [hshape] at hc
      have hE : "Endpoint=".toList ++ e = 'E' :: ("ndpoint=".toList ++ e) := rfl
      rw [hE] at hc
      simp at hc
      subst hc
      decide
    · intro c hc
      have hsh2 : namespaceCs e n k =
          ("Endpoint=".toList ++ e ++ ';' :: ("SharedAccessKeyName=".toList ++ n
            ++ ';' :: "SharedAccessKey=".toList)) ++ k := by
        rw [hshape]; simp [List.append_assoc]
      cases hkk : k with
      | nil =>
        rw [hsh2, hkk, List.append_nil] at hc
        have h3 : ("Endpoint=".toList ++ e ++ ';' :: ("SharedAccessKeyName=".toList ++ n
            ++ ';' :: "SharedAccessKey=".toList))
            = ("Endpoint=".toList ++ e ++ ';' :: ("SharedAccessKeyName=".toList ++ n ++ [';']))
              ++ "SharedAccessKey=".toList := by simp
        rw [h3, getLast?_append_ne_nil _ _ (by decide)] at hc
        have h4 : ("SharedAccessKey=".toList).getLast? = some '=' := by decide
        rw [h4] at hc
        injection hc with hc
        subst hc
        decide
      | cons c0 t0 =>
        rw [hsh2, getLast?_append_ne_nil _ _ (by simp [hkk])] at hc
        exact stripped_getLast_not k hks c hc
  unfold segments
  rw [hstrip, hshape]
  unfold splitSemi
  rw [splitSemiAux_append _ _ hseg1, splitSemiAux_semi,
      splitSemiAux_append _ _ hseg2, splitSemiAux_semi,
      splitSemiAux_no_semi _ hseg3]
  simp only [List.append_nil]
  rw [show ("Endpoint=".toList ++ e) = 'E' :: ("ndpoint=".toList ++ e) from rfl,
      show ("SharedAccessKeyName=".toList ++ n) = 'S' :: ("haredAccessKeyName=".toList ++ n)
        from rfl,
      show ("SharedAccessKey=".toList ++ k) = 'S' :: ("haredAccessKey=".toList ++ k) from rfl]
  simp [List.filter]

/-- Re-parsing the reconstructed namespace string yields exactly the three
    required pairs, in the fixed order, and nothing else. -/
theorem segPairs_namespaceCs (e n k : List Char)
    (he : ';' ∉ e) (hes : pyStrip e = e)
    (hn : ';' ∉ n) (hns : pyStrip n = n)
    (hk : ';' ∉ k) (hks : pyStrip k = k) :
    segPairs (namespaceCs e n k) = [(endpointKey, e), (saknKey, n), (sakKey, k)] := by
  unfold segPairs
  rw [segments_namespaceCs e n k he hes hn hns hk hks]
  have h1 : pairOfSeg ("Endpoint=".toList ++ e) = some (endpointKey, e) := by
    rw [show "Endpoint=".toList ++ e = "Endpoint".toList ++ '=' :: e from rfl]
    exact pairOfSeg_keyval _ e (by decide) (by decide) hes
  have h2 : pairOfSeg ("SharedAccessKeyName=".toList ++ n) = some (saknKey, n) := by
    rw [show "SharedAccessKeyName=".toList ++ n = "SharedAccessKeyName".toList ++ '=' :: n
      from rfl]
    exact pairOfSeg_keyval _ n (by decide) (by decide) hns
  have h3 : pairOfSeg ("SharedAccessKey=".toList ++ k) = some (sakKey, k) := by
    rw [show "SharedAccessKey=".toList ++ k = "SharedAccessKey".toList ++ '=' :: k from rfl]
    exact pairOfSeg_keyval _ k (by decide) (by decide) hks
  simp only [List.filterMap_cons, h1, h2, h3, List.filterMap_nil]

/-- **C1.**  For every connection string whose parsed segment map contains the
    three required keys, `parse_connection_string` succeeds; it returns the
    namespace string rebuilt from exactly those three `key=value` pairs in the
    fixed order `Endpoint;SharedAccessKeyName;SharedAccessKey` (re-splitting it
    yields exactly those three pairs and in particular no `EntityPath` pair),
    together with the `EntityPath` value unchanged (absent when the input had
    none). -/
theorem C1_parser_namespace_fixed_order (cs e n k : List Char)
    (he : lookupLast (segPairs cs) endpointKey = some e)
    (hn : lookupLast (segPairs cs) saknKey = some n)
    (hk : lookupLast (segPairs cs) sakKey = some k) :
    parse_connection_string cs
        = .ok (namespaceCs e n k, lookupLast (segPairs cs) entityPathKey)
      ∧ segPairs (namespaceCs e n k) = [(endpointKey, e), (saknKey, n), (sakKey, k)]
      ∧ lookupLast (segPairs (namespaceCs e n k)) entityPathKey = none := by
  obtain ⟨hesemi, hestrip⟩ := segPairs_val_props cs _ e (lookupLast_mem _ _ _ he)
  obtain ⟨hnsemi, hnstrip⟩ := segPairs_val_props cs _ n (lookupLast_mem _ _ _ hn)
  obtain ⟨hksemi, hkstrip⟩ := segPairs_val_props cs _ k (lookupLast_mem _ _ _ hk)
  have hre := segPairs_namespaceCs e n k hesemi hestrip hnsemi hnstrip hksemi hkstrip
  refine ⟨?_, hre, ?_⟩
  · unfold parse_connection_string
    rw [he, hn, hk]
  · rw [hre]
    simp only [lookupLast]
    rw [if_neg (by decide), if_neg (by decide), if_neg (by decide)]

/-- Concrete instance of C1: a connection string with the keys out of order,
    an extra key, and an `EntityPath`. -/
theorem C1_witness :
    lookupLast (segPairs ("SharedAccessKey=sk;Endpoint=sb://ns.example/;Extra=1;EntityPath=orders;SharedAccessKeyName=kn".toList)) endpointKey = some ("sb://ns.example/".toList)
    ∧ parse_connection_string ("SharedAccessKey=sk;Endpoint=sb://ns.example/;Extra=1;EntityPath=orders;SharedAccessKeyName=kn".toList)
        = .ok (namespaceCs ("sb://ns.example/".toList) ("kn".toList) ("sk".toList),
               lookupLast (segPairs ("SharedAccessKey=sk;Endpoint=sb://ns.example/;Extra=1;EntityPath=orders;SharedAccessKeyName=kn".toList)) entityPathKey)
    ∧ segPairs (namespaceCs ("sb://ns.example/".toList) ("kn".toList) ("sk".toList))
        = [(endpointKey, "sb://ns.example/".toList), (saknKey, "kn".toList),
           (sakKey, "sk".toList)]
    ∧ lookupLast (segPairs (namespaceCs ("sb://ns.example/".toList) ("kn".toList)
        ("sk".toList))) entityPathKey = none := by
  refine ⟨by decide, ?_⟩
  have h := C1_parser_namespace_fixed_order
    ("SharedAccessKey=sk;Endpoint=sb://ns.example/;Extra=1;EntityPath=orders;SharedAccessKeyName=kn".toList)
    ("sb://ns.example/".toList) ("kn".toList) ("sk".toList)
    (by decide) (by decide) (by decide)
  exact h

/-- **C3.**  Whenever one of the three required keys is absent from the parsed
    segment map, `parse_connection_string` fails with the
    `Connection string missing required part:` error naming a missing key, and
    `main` turns that failure into a fatal exit with code 2, printing the error
    on stderr. -/
theorem C3_missing_key_fatal_exit2 (cs : List Char) (flag : Option (List Char))
    (h : ∃ r ∈ requiredKeys, lookupLast (segPairs cs) r = none) :
    ∃ r ∈ requiredKeys, lookupLast (segPairs cs) r = none
      ∧ parse_connection_string cs = .error (missingMsg r)
      ∧ missingMsg r = "Connection string missing required part: ".toList ++ r
      ∧ cliStartup cs flag = .exit2 (invalidCsMsg (missingMsg r))
      ∧ (cliStartup cs flag).exitCode = 2 := by
  match he : lookupLast (segPairs cs) endpointKey with
  | none =>
    refine ⟨endpointKey, by simp [requiredKeys], he, ?_, rfl, ?_, ?_⟩
    · unfold parse_connection_string
      rw [he]
    · unfold cliStartup parse_connection_string
      rw [he]
    · unfold cliStartup parse_connection_string
      rw [he]
      rfl
  | some e =>
    match hn : lookupLast (segPairs cs) saknKey with
    | none =>
      refine ⟨saknKey, by simp [requiredKeys], hn, ?_, rfl, ?_, ?_⟩
      · unfold parse_connection_string
        rw [he, hn]
      · unfold cliStartup parse_connection_string
        rw [he, hn]
      · unfold cliStartup parse_connection_string
        rw [he, hn]
        rfl
    | some n =>
      match hk : lookupLast (segPairs cs) sakKey with
      | none =>
        refine ⟨sakKey, by simp [requiredKeys], hk, ?_, rfl, ?_, ?_⟩
        · unfold parse_connection_string
          rw [he, hn, hk]
        · unfold cliStartup parse_connection_string
          rw [he, hn, hk]
        · unfold cliStartup parse_connection_string
          rw [he, hn, hk]
          rfl
      | some k =>
        exfalso
        obtain ⟨r, hr, hnone⟩ := h
        simp only [requiredKeys, List.mem_cons, List.mem_singleton] at hr
        rcases hr with rfl | rfl | hr
        · rw [he] at hnone; exact Option.noConfusion hnone
        · rw [hn] at hnone; exact Option.noConfusion hnone
        · rcases hr with rfl | hr
          · rw [hk] at hnone; exact Option.noConfusion hnone
          · exact absurd hr (List.not_mem_nil r)

/-- Concrete instance of C3: `SharedAccessKey` is missing, the parser reports
    it, and the CLI exits with code 2. -/
theorem C3_witness :
    (∃ r ∈ requiredKeys,
      lookupLast (segPairs ("Endpoint=sb://ns.example/;SharedAccessKeyName=kn".toList)) r = none)
    ∧ ∃ r ∈ requiredKeys,
        lookupLast (segPairs ("Endpoint=sb://ns.example/;SharedAccessKeyName=kn".toList)) r = none
        ∧ parse_connection_string ("Endpoint=sb://ns.example/;SharedAccessKeyName=kn".toList)
            = .error (missingMsg r)
        ∧ missingMsg r = "Connection string missing required part: ".toList ++ r
        ∧ cliStartup ("Endpoint=sb://ns.example/;SharedAccessKeyName=kn".toList) none
            = .exit2 (invalidCsMsg (missingMsg r))
        ∧ (cliStartup ("Endpoint=sb://ns.example/;SharedAccessKeyName=kn".toList) none).exitCode
            = 2 :=
  ⟨⟨sakKey, by decide, by decide⟩,
   C3_missing_key_fatal_exit2 ("Endpoint=sb://ns.example/;SharedAccessKeyName=kn".toList) none
     ⟨sakKey, by decide, by decide⟩⟩

/-- **C10.**  A `;`-delimited segment with no `=` is silently discarded: it
    contributes nothing to the key/value map, and if a required key (here
    `Endpoint`) only ever occurs in such segments it counts as absent, so the
    parser fails naming it. -/
theorem C10_segment_without_eq_discarded (cs seg : List Char) (pre post : List (List Char))
    (hsplit : segments cs = pre ++ seg :: post) (hnoeq : seg.contains '=' = false) :
    segPairs cs = (pre ++ post).filterMap pairOfSeg
      ∧ (lookupLast (segPairs cs) endpointKey = none →
          parse_connection_string cs = .error (missingMsg endpointKey)) := by
  constructor
  · unfold segPairs
    rw [hsplit, List.filterMap_append, List.filterMap_cons]
    rw [show pairOfSeg seg = none from by unfold pairOfSeg; rw [hnoeq]; rfl]
    rw [List.filterMap_append]
  · intro hnone
    unfold parse_connection_string
    rw [hnone]

/-- Concrete instance of C10: a bare `Endpoint` segment (no `=`) is dropped and
    the parser then reports `Endpoint` as missing. -/
theorem C10_witness :
    segments ("Endpoint;SharedAccessKeyName=kn;SharedAccessKey=sk".toList)
        = [] ++ "Endpoint".toList :: ["SharedAccessKeyName=kn".toList,
            "SharedAccessKey=sk".toList]
    ∧ ("Endpoint".toList).contains '=' = false
    ∧ segPairs ("Endpoint;SharedAccessKeyName=kn;SharedAccessKey=sk".toList)
        = ([] ++ ["SharedAccessKeyName=kn".toList,
            "SharedAccessKey=sk".toList]).filterMap pairOfSeg
    ∧ parse_connection_string ("Endpoint;SharedAccessKeyName=kn;SharedAccessKey=sk".toList)
        = .error (missingMsg endpointKey) := by
  have h := C10_segment_without_eq_discarded
    ("Endpoint;SharedAccessKeyName=kn;SharedAccessKey=sk".toList) ("Endpoint".toList)
    [] ["SharedAccessKeyName=kn".toList, "SharedAccessKey=sk".toList]
    (by decide) (by decide)
  exact ⟨by decide, by decide, h.1, h.2 (by decide)⟩

/-- After a successful parse, `cliStartup` is queue resolution. -/
theorem cliStartup_ok (cs : List Char) (flag : Option (List Char)) (ns : List Char)
    (entity : Option (List Char)) (hp : parse_connection_string cs = .ok (ns, entity)) :
    cliStartup cs flag
      = match resolveQueue flag entity with
        | none => .exit2 noQueueMsg
        | some q => .proceed ns q := by
  unfold cliStartup
  rw [hp]

/-- **C4, counterexample.**  The claim "queue resolution returns the explicit
    flag value whenever one is given" fails: with `--queue ""` (the empty
    string, which argparse happily supplies) and `EntityPath=orders`, the
    resolution returns `orders`, not the given flag value `""`. -/
theorem C4_counterexample :
    resolveQueue (some []) (some ("orders".toList)) = some ("orders".toList)
      ∧ resolveQueue (some []) (some ("orders".toList)) ≠ some [] := by decide

/-- **C4, amended.**  Queue resolution returns the explicit `--queue` flag
    value whenever a *non-empty* one is given (a truthiness test, so an
    empty-string flag does not take precedence), and when flag and
    `EntityPath` are both absent or empty the CLI fails with the
    missing-queue-name message, fatal with exit code 2. -/
theorem C4_amended_flag_precedence_exit2 (cs ns : List Char)
    (flag entity : Option (List Char))
    (hp : parse_connection_string cs = .ok (ns, entity)) :
    (∀ s, flag = some s → s ≠ [] → cliStartup cs flag = .proceed ns s)
      ∧ ((flag = none ∨ flag = some []) → (entity = none ∨ entity = some []) →
          cliStartup cs flag = .exit2 noQueueMsg ∧ (cliStartup cs flag).exitCode = 2) := by
  constructor
  · intro s hs hne
    subst hs
    have hres : resolveQueue (some s) entity = some s := by
      unfold resolveQueue pyOrStr pyTruthyStr
      rw [if_pos (by simpa using hne)]
      simpa using hne
    rw [cliStartup_ok cs _ ns entity hp, hres]
  · intro hflag hentity
    have hres : resolveQueue flag entity = none := by
      rcases hflag with rfl | rfl <;> rcases hentity with rfl | rfl <;> rfl
    rw [cliStartup_ok cs _ ns entity hp, hres]
    exact ⟨rfl, rfl⟩

/-- Concrete instance of the amended C4: `--queue items` overrides
    `EntityPath=orders`; and with neither flag nor entity path the CLI exits
    with code 2. -/
theorem C4_amended_witness :
    parse_connection_string ("Endpoint=sb://ns.example/;SharedAccessKeyName=kn;SharedAccessKey=sk;EntityPath=orders".toList)
        = .ok (namespaceCs ("sb://ns.example/".toList) ("kn".toList) ("sk".toList),
               some ("orders".toList))
    ∧ "items".toList ≠ ([] : List Char)
    ∧ cliStartup ("Endpoint=sb://ns.example/;SharedAccessKeyName=kn;SharedAccessKey=sk;EntityPath=orders".toList)
        (some ("items".toList))
        = .proceed (namespaceCs ("sb://ns.example/".toList) ("kn".toList) ("sk".toList))
            ("items".toList) :=
  ⟨by rfl, by decide,
   (C4_amended_flag_precedence_exit2 _ _ (some ("items".toList)) (some ("orders".toList))
      (by rfl)).1 ("items".toList) rfl (by decide)⟩

/-- **C9.**  Queue resolution tests truthiness, not presence: an empty-string
    `--queue` flag does not take precedence, resolution falls back to the
    connection string's `EntityPath`, and when that is likewise absent or empty
    the CLI fails with the missing-queue-name message and exit code 2. -/
theorem C9_empty_flag_falls_back (cs ns : List Char) (entity : Option (List Char))
    (hp : parse_connection_string cs = .ok (ns, entity)) :
    (∀ ep, entity = some ep → ep ≠ [] → cliStartup cs (some []) = .proceed ns ep)
      ∧ ((entity = none ∨ entity = some []) →
          cliStartup cs (some []) = .exit2 noQueueMsg
            ∧ (cliStartup cs (some [])).exitCode = 2) := by
  constructor
  · intro ep hep hne
    subst hep
    have hres : resolveQueue (some []) (some ep) = some ep := by
      unfold resolveQueue pyOrStr pyTruthyStr
      rw [if_neg (by simp)]
      simpa using hne
    rw [cliStartup_ok cs _ ns (some ep) hp, hres]
  · intro hentity
    have hres : resolveQueue (some []) entity = none := by
      rcases hentity with rfl | rfl <;> rfl
    rw [cliStartup_ok cs _ ns entity hp, hres]
    exact ⟨rfl, rfl⟩

/-- Concrete instance of C9: an empty `--queue` flag with `EntityPath=orders`
    resolves to `orders`. -/
theorem C9_witness :
    parse_connection_string ("Endpoint=sb://ns.example/;SharedAccessKeyName=kn;SharedAccessKey=sk;EntityPath=orders".toList)
        = .ok (namespaceCs ("sb://ns.example/".toList) ("kn".toList) ("sk".toList),
               some ("orders".toList))
    ∧ "orders".toList ≠ ([] : List Char)
    ∧ cliStartup ("Endpoint=sb://ns.example/;SharedAccessKeyName=kn;SharedAccessKey=sk;EntityPath=orders".toList)
        (some [])
        = .proceed (namespaceCs ("sb://ns.example/".toList) ("kn".toList) ("sk".toList))
            ("orders".toList) :=
  ⟨by rfl, by decide,
   (C9_empty_flag_falls_back _ _ (some ("orders".toList)) (by rfl)).1
     ("orders".toList) rfl (by decide)⟩

/-! ## Body rendering: base64 round trip, verbatim text, error recovery -/

theorem b64ValOf_b64CharOf : ∀ x < 64, b64ValOf (b64CharOf x) = some x := by decide

theorem b64CharOf_ne_pad : ∀ x < 64, b64CharOf x ≠ '=' := by decide

theorem b64decode_encode (bs : List Nat) (h : ∀ b ∈ bs, b < 256) :
    b64decode (b64encode bs) = some bs := by
  induction bs using b64encode.induct with
  | case1 a b c rest ih =>
    have ha : a < 256 := h a (by simp)
    have hb : b < 256 := h b (by simp)
    have hc : c < 256 := h c (by simp)
    have ihr := ih (fun x hx => h x (by simp [hx]))
    have e1 : b64ValOf (b64CharOf (a / 4)) = some (a / 4) :=
      b64ValOf_b64CharOf _ (by omega)
    have e2 : b64ValOf (b64CharOf (a % 4 * 16 + b / 16)) = some (a % 4 * 16 + b / 16) :=
      b64ValOf_b64CharOf _ (by omega)
    have e3 : b64ValOf (b64CharOf (b % 16 * 4 + c / 64)) = some (b % 16 * 4 + c / 64) :=
      b64ValOf_b64CharOf _ (by omega)
    have e4 : b64ValOf (b64CharOf (c % 64)) = some (c % 64) :=
      b64ValOf_b64CharOf _ (by omega)
    have n3 : ¬ (b64CharOf (b % 16 * 4 + c / 64) = '=') := b64CharOf_ne_pad _ (by omega)
    have n4 : ¬ (b64CharOf (c % 64) = '=') := b64CharOf_ne_pad _ (by omega)
    simp only [b64encode, b64decode, e1, e2, e3, e4, if_neg n3, if_neg n4, ihr,
      Option.map_some]
    refine congrArg some ?_
    have ea : a / 4 * 4 + (a % 4 * 16 + b / 16) / 16 = a := by omega
    have eb : (a % 4 * 16 + b / 16) % 16 * 16 + (b % 16 * 4 + c / 64) / 4 = b := by omega
    have ec : (b % 16 * 4 + c / 64) % 4 * 64 + c % 64 = c := by omega
    rw [ea, eb, ec]
  | case2 a b =>
    have ha : a < 256 := h a (by simp)
    have hb : b < 256 := h b (by simp)
    have e1 : b64ValOf (b64CharOf (a / 4)) = some (a / 4) :=
      b64ValOf_b64CharOf _ (by omega)
    have e2 : b64ValOf (b64CharOf (a % 4 * 16 + b / 16)) = some (a % 4 * 16 + b / 16) :=
      b64ValOf_b64CharOf _ (by omega)
    have e3 : b64ValOf (b64CharOf (b % 16 * 4)) = some (b % 16 * 4) :=
      b64ValOf_b64CharOf _ (by omega)
    have n3 : ¬ (b64CharOf (b % 16 * 4) = '=') := b64CharOf_ne_pad _ (by omega)
    simp only [b64encode, b64decode, e1, e2, e3, if_neg n3, if_pos rfl,
      and_self, if_true]
    refine congrArg some ?_
    have ea : a / 4 * 4 + (a % 4 * 16 + b / 16) / 16 = a := by omega
    have eb : (a % 4 * 16 + b / 16) % 16 * 16 + b % 16 * 4 / 4 = b := by omega
    rw [ea, eb]
  | case3 a =>
    have ha : a < 256 := h a (by simp)
    have e1 : b64ValOf (b64CharOf (a / 4)) = some (a / 4) :=
      b64ValOf_b64CharOf _ (by omega)
    have e2 : b64ValOf (b64CharOf (a % 4 * 16)) = some (a % 4 * 16) :=
      b64ValOf_b64CharOf _ (by omega)
    simp only [b64encode, b64decode, e1, e2, if_pos rfl, and_self, if_true]
    refine congrArg some ?_
    have ea : a / 4 * 4 + a % 4 * 16 / 16 = a := by omega
    rw [ea]
  | case4 => rfl

/-- Unfolding of `safe_body_to_str` once the body chunks are read. -/
theorem safe_body_to_str_ok (m : SBMessage) (chunks : List (List Nat))
    (hm : m.body = .ok chunks) :
    safe_body_to_str m
      = match utf8Decode chunks.flatten with
        | none => base64Tag ++ b64encode chunks.flatten
        | some s =>
          match jsonLoads s with
          | some obj => jsonDumps2 obj
          | none => s := by
  unfold safe_body_to_str
  rw [hm]

/-- **C5.**  When the concatenated body bytes are not valid UTF-8, the body
    renders as `base64:<text>`, and base64-decoding `<text>` reproduces the
    bytes exactly. -/
theorem C5_non_utf8_base64_roundtrip (m : SBMessage) (chunks : List (List Nat))
    (hm : m.body = .ok chunks)
    (hbytes : ∀ b ∈ chunks.flatten, b < 256)
    (hdec : utf8Decode chunks.flatten = none) :
    safe_body_to_str m = base64Tag ++ b64encode chunks.flatten
      ∧ b64decode (b64encode chunks.flatten) = some chunks.flatten := by
  constructor
  · rw [safe_body_to_str_ok m chunks hm]
    simp only [hdec]
  · exact b64decode_encode _ hbytes

/-- Concrete instance of C5: the body `b"\xff\x00"` is not UTF-8; it renders
    as `base64:/wA=` and decodes back. -/
theorem C5_witness :
    ({ body := Except.ok [[255], [0]] } : SBMessage).body = .ok [[255], [0]]
    ∧ (∀ b ∈ ([[255], [0]] : List (List Nat)).flatten, b < 256)
    ∧ utf8Decode ([[255], [0]] : List (List Nat)).flatten = none
    ∧ safe_body_to_str ({ body := Except.ok [[255], [0]] } : SBMessage)
        = base64Tag ++ b64encode ([[255], [0]] : List (List Nat)).flatten
    ∧ b64decode (b64encode ([[255], [0]] : List (List Nat)).flatten)
        = some ([[255], [0]] : List (List Nat)).flatten := by
  refine ⟨rfl, by decide, by decide, ?_⟩
  exact C5_non_utf8_base64_roundtrip _ [[255], [0]] rfl (by decide) (by decide)

/-- **C6.**  When the concatenated body bytes decode as UTF-8 but the decoded
    text is not JSON, the renderer returns the decoded text unchanged. -/
theorem C6_utf8_not_json_verbatim (m : SBMessage) (chunks : List (List Nat))
    (s : List Char) (hm : m.body = .ok chunks)
    (hdec : utf8Decode chunks.flatten = some s)
    (hjson : jsonLoads s = none) :
    safe_body_to_str m = s := by
  rw [safe_body_to_str_ok m chunks hm]
  simp only [hdec, hjson]

/-- Concrete instance of C6: the body `b"hi"` decodes to `"hi"`, which is not
    JSON, and is returned verbatim. -/
theorem C6_witness :
    ({ body := Except.ok [[104, 105]] } : SBMessage).body = .ok [[104, 105]]
    ∧ utf8Decode ([[104, 105]] : List (List Nat)).flatten = some ("hi".toList)
    ∧ jsonLoads ("hi".toList) = none
    ∧ safe_body_to_str ({ body := Except.ok [[104, 105]] } : SBMessage) = "hi".toList :=
  ⟨rfl, by rfl, by rfl,
   C6_utf8_not_json_verbatim _ [[104, 105]] ("hi".toList) rfl (by rfl) (by rfl)⟩

theorem mapM_ok_of_pure (f : SBMessage → Nat → List Char) (l : List (Nat × SBMessage)) :
    (l.mapM (fun p => Except.ok (f p.2 p.1)) : Except (List Char) (List (List Char)))
      = .ok (l.map (fun p => f p.2 p.1)) := by
  induction l with
  | nil => rfl
  | cons x t ih =>
    rw [List.mapM_cons, List.map_cons, ih]
    rfl

/-- **C7.**  A failure while reading or concatenating the body chunks is
    absorbed by `safe_body_to_str` as an inline placeholder embedding the
    error text; the peek loop therefore never aborts on it, and every message
    of the batch — before and after the failing one — is still rendered and
    counted. -/
theorem C7_body_read_failure_recovered (tag e : List Char) (m : SBMessage)
    (pre post : List SBMessage) (hm : m.body = .error e) :
    safe_body_to_str m = bodyErrTag e
      ∧ peekLoopRun tag (pre ++ m :: post)
          = .ok ((peek_from_queue tag (pre ++ m :: post)).1)
      ∧ (peek_from_queue tag (pre ++ m :: post)).1.length
          = pre.length + 1 + post.length
      ∧ (peek_from_queue tag (pre ++ m :: post)).2 = pre.length + 1 + post.length := by
  refine ⟨?_, ?_, ?_, ?_⟩
  · unfold safe_body_to_str
    rw [hm]
  · unfold peekLoopRun peek_from_queue
    rw [mapM_ok_of_pure (fun mm i => print_message tag mm i)]
  · unfold peek_from_queue
    simp
    omega
  · unfold peek_from_queue
    simp
    omega

/-- Concrete instance of C7: a two-message batch whose first body read raises
    `boom`; both messages still render, the first with the placeholder. -/
theorem C7_witness :
    ({ body := Except.error ("boom".toList) } : SBMessage).body
        = .error ("boom".toList)
    ∧ safe_body_to_str ({ body := Except.error ("boom".toList) } : SBMessage)
        = bodyErrTag ("boom".toList)
    ∧ peekLoopRun ("ACTIVE".toList)
        ([] ++ ({ body := Except.error ("boom".toList) } : SBMessage) :: [{ : SBMessage }])
          = .ok ((peek_from_queue ("ACTIVE".toList)
              ([] ++ ({ body := Except.error ("boom".toList) } : SBMessage)
                :: [{ : SBMessage }])).1)
    ∧ (peek_from_queue ("ACTIVE".toList)
        ([] ++ ({ body := Except.error ("boom".toList) } : SBMessage)
          :: [{ : SBMessage }])).1.length = 0 + 1 + 1 :=
  have h := C7_body_read_failure_recovered ("ACTIVE".toList) ("boom".toList)
    ({ body := Except.error ("boom".toList) } : SBMessage) [] [{ : SBMessage }] rfl
  ⟨rfl, h.1, h.2.1, h.2.2.1⟩

theorem isNull_false_iff (v : Json) : (!v.isNull) = true ↔ v ≠ Json.jnull := by
  cases v <;> simp [Json.isNull]

theorem keys_nodup_pair_eq {β : Type} (l : List (List Char × β))
    (h : (l.map Prod.fst).Nodup) :
    ∀ kv1 ∈ l, ∀ kv2 ∈ l, kv1.1 = kv2.1 → kv1 = kv2 := by
  induction l with
  | nil => intro kv1 h1; simp at h1
  | cons x t ih =>
    intro kv1 h1 kv2 h2 heq
    rw [List.map_cons, List.nodup_cons] at h
    rcases List.mem_cons.mp h1 with he1 | h1 <;> rcases List.mem_cons.mp h2 with he2 | h2
    · rw [he1, he2]
    · exfalso
      apply h.1
      have hmem : kv2.1 ∈ t.map Prod.fst := List.mem_map_of_mem Prod.fst h2
      rw [he1] at heq
      rw [heq]
      exact hmem
    · exfalso
      apply h.1
      have hmem : kv1.1 ∈ t.map Prod.fst := List.mem_map_of_mem Prod.fst h1
      rw [he2] at heq
      rw [← heq]
      exact hmem
    · exact ih h.2 kv1 h1 kv2 h2 heq

/-- The sixteen property keys, in source order, with no duplicates. -/
theorem propsJson_keys (m : SBMessage) : (propsJson m).map Prod.fst = propFields := rfl

/-- **C8.**  The rendered property object drops exactly the fields whose
    converted value is `None`/null, and the surviving fields keep the fixed
    field order of the `props` literal (its key list in source order), not an
    alphabetical or value-dependent order. -/
theorem C8_null_dropped_fixed_order (m : SBMessage) :
    ((printedProps m).map Prod.fst).Sublist propFields
      ∧ (∀ kv ∈ propsJson m, kv.2 = Json.jnull →
          kv.1 ∉ (printedProps m).map Prod.fst)
      ∧ (∀ kv ∈ propsJson m, kv.2 ≠ Json.jnull → kv ∈ printedProps m) := by
  have hnodup : ((propsJson m).map Prod.fst).Nodup := by
    rw [propsJson_keys]
    decide
  refine ⟨?_, ?_, ?_⟩
  · rw [← propsJson_keys m]
    exact (List.filter_sublist _).map Prod.fst
  · intro kv hkv hnull hmem
    obtain ⟨kv', hkv', hfst⟩ := List.mem_map.mp hmem
    have hkv'mem : kv' ∈ propsJson m := (List.mem_filter.mp hkv').1
    have : kv' = kv := keys_nodup_pair_eq _ hnodup kv' hkv'mem kv hkv hfst
    subst this
    have := (List.mem_filter.mp hkv').2
    rw [isNull_false_iff] at this
    exact this hnull
  · intro kv hkv hne
    exact List.mem_filter.mpr ⟨hkv, (isNull_false_iff kv.2).mpr hne⟩

/-! ## C2 machinery: digit strings -/

theorem digitsToNat_foldl_from (a : Nat) (l : List Char) :
    l.foldl (fun acc c => acc * 10 + (c.toNat - 48)) a
      = a * 10 ^ l.length + digitsToNat l := by
  induction l generalizing a with
  | nil => simp [digitsToNat]
  | cons c t ih =>
    rw [List.foldl_cons]
    rw [ih (a * 10 + (c.toNat - 48))]
    rw [show digitsToNat (c :: t)
      = List.foldl (fun acc c => acc * 10 + (c.toNat - 48)) (0 * 10 + (c.toNat - 48)) t
      from rfl]
    rw [ih (0 * 10 + (c.toNat - 48))]
    simp only [List.length_cons, pow_succ]
    ring

theorem digitsToNat_append (l1 l2 : List Char) :
    digitsToNat (l1 ++ l2) = digitsToNat l1 * 10 ^ l2.length + digitsToNat l2 := by
  unfold digitsToNat
  rw [List.foldl_append]
  exact digitsToNat_foldl_from _ l2

theorem digitsToNat_zeros (k : Nat) : digitsToNat (List.replicate k '0') = 0 := by
  induction k with
  | zero => rfl
  | succ n ih =>
    rw [List.replicate_succ]
    unfold digitsToNat at ih ⊢
    rw [List.foldl_cons]
    simpa using ih

theorem digitChar_isDigit : ∀ d < 10, isDigitCh (Nat.digitChar d) = true := by decide

theorem digitChar_val : ∀ d < 10, (Nat.digitChar d).toNat - 48 = d := by decide

theorem natDigsMSF_zero : natDigsMSF 0 = [] := by
  unfold natDigsMSF
  simp

theorem natDigsMSF_succ (n : Nat) (hn : n ≠ 0) :
    natDigsMSF n = natDigsMSF (n / 10) ++ [Nat.digitChar (n % 10)] := by
  unfold natDigsMSF
  rw [Nat.digits_def' (by norm_num : (1:Nat) < 10) (Nat.pos_of_ne_zero hn)]
  rw [List.map_cons, List.reverse_cons]

theorem natDigsMSF_all_digits (n : Nat) : ∀ c ∈ natDigsMSF n, isDigitCh c = true := by
  intro c hc
  unfold natDigsMSF at hc
  rw [List.mem_reverse, List.mem_map] at hc
  obtain ⟨d, hd, rfl⟩ := hc
  exact digitChar_isDigit d (Nat.digits_lt_base (by norm_num) hd)

theorem digitsToNat_natDigsMSF (n : Nat) : digitsToNat (natDigsMSF n) = n := by
  induction n using Nat.strong_induction_on with
  | _ n ih =>
    by_cases hn : n = 0
    · subst hn
      rw [natDigsMSF_zero]
      rfl
    · rw [natDigsMSF_succ n hn, digitsToNat_append]
      rw [ih (n / 10) (Nat.div_lt_self (Nat.pos_of_ne_zero hn) (by norm_num))]
      have h10 : n % 10 < 10 := Nat.mod_lt _ (by norm_num)
      unfold digitsToNat
      simp only [List.length_singleton, pow_one, List.foldl_cons, List.foldl_nil]
      rw [digitChar_val _ h10]
      omega

theorem natDigsMSF_ne_nil (n : Nat) (hn : n ≠ 0) : natDigsMSF n ≠ [] := by
  rw [natDigsMSF_succ n hn]
  intro h
  have h2 := (List.append_eq_nil.mp h).2
  simp at h2

theorem natDigsMSF_head_ne_zero (n : Nat) (hn : n ≠ 0) (c : Char) (t : List Char)
    (h : natDigsMSF n = c :: t) : c ≠ '0' := by
  have hne : Nat.digits 10 n ≠ [] := Nat.digits_ne_nil_iff_ne_zero.mpr hn
  have hlast : (Nat.digits 10 n).getLast hne ≠ 0 := Nat.getLast_digit_ne_zero 10 hn
  have hdlt : (Nat.digits 10 n).getLast hne < 10 :=
    Nat.digits_lt_base (by norm_num) (List.getLast_mem hne)
  unfold natDigsMSF at h
  have hh : ((Nat.digits 10 n).map Nat.digitChar).getLast? = some c := by
    rw [← List.head?_reverse, h]
    rfl
  rw [List.getLast?_map, List.getLast?_eq_getLast _ hne] at hh
  have hc : Nat.digitChar ((Nat.digits 10 n).getLast hne) = c := by
    simpa using hh
  have key : ∀ d, d < 10 → d ≠ 0 → Nat.digitChar d ≠ '0' := by decide
  exact hc ▸ key _ hdlt hlast

theorem natLit_all_digits (n : Nat) : ∀ c ∈ natLit n, isDigitCh c = true := by
  intro c hc
  unfold natLit at hc
  split at hc
  · simp at hc
    subst hc
    decide
  · exact natDigsMSF_all_digits n c hc

theorem digitsToNat_natLit (n : Nat) : digitsToNat (natLit n) = n := by
  unfold natLit
  split
  · subst n
    rfl
  · exact digitsToNat_natDigsMSF n

theorem natLit_ne_nil (n : Nat) : natLit n ≠ [] := by
  unfold natLit
  split
  · simp
  · exact natDigsMSF_ne_nil n (by assumption)

/-! ## C2 machinery: canonical decimals -/

theorem shift10_stop (f : Nat) (m e : Int) (hm : m % 10 ≠ 0) :
    shift10 f m e = (m, e) := by
  cases f with
  | zero => rfl
  | succ g =>
    unfold shift10
    rw [if_neg hm]

theorem canonNum_fixed (m e : Int) (hm : m % 10 ≠ 0) : canonNum m e = (m, e) := by
  unfold canonNum
  rw [if_neg (fun h0 => hm (by simp [h0]))]
  exact shift10_stop _ m e hm

theorem shift10_strip (k : Nat) : ∀ (f : Nat) (m e : Int), m ≠ 0 → m % 10 ≠ 0 →
    k < f → shift10 f (m * 10 ^ k) e = (m, e + k) := by
  induction k with
  | zero =>
    intro f m e hm0 hm hf
    rw [pow_zero, mul_one]
    rw [shift10_stop f m e hm]
    simp
  | succ j ih =>
    intro f m e hm0 hm hf
    match f, hf with
    | g + 1, _ =>
      unfold shift10
      have hdvd : (m * 10 ^ (j + 1)) % 10 = 0 := by
        rw [pow_succ, ← mul_assoc]
        exact Int.mul_emod_left _ _
      rw [if_pos hdvd]
      have hdiv : m * 10 ^ (j + 1) / 10 = m * 10 ^ j := by
        rw [pow_succ, ← mul_assoc]
        exact Int.mul_ediv_cancel _ (by norm_num)
      rw [hdiv, ih g m (e + 1) hm0 hm (by omega)]
      congr 1
      push_cast
      ring

theorem canonNum_strip (m : Int) (k : Nat) (hm : m % 10 ≠ 0) :
    canonNum (m * 10 ^ k) 0 = (m, (k : Int)) := by
  have hm0 : m ≠ 0 := fun h0 => hm (by simp [h0])
  have hne : m * 10 ^ k ≠ 0 := by
    intro h
    rcases mul_eq_zero.mp h with h1 | h1
    · exact hm0 h1
    · exact absurd h1 (by positivity)
  unfold canonNum
  rw [if_neg hne]
  have hfuel : k < (m * 10 ^ k).natAbs := by
    rw [Int.natAbs_mul]
    have h1 : 1 ≤ m.natAbs := by
      rcases Int.natAbs_eq_zero.not.mpr hm0 with h
      omega
    have h2 : k < (10 ^ k : Int).natAbs := by
      rw [Int.natAbs_pow]
      calc k < 10 ^ k := Nat.lt_pow_self (by norm_num) k
        _ = ((10 : Int).natAbs) ^ k := by norm_num
    calc k < (10 ^ k : Int).natAbs := h2
      _ ≤ m.natAbs * (10 ^ k : Int).natAbs := by
          rw [Int.natAbs_pow]
          exact Nat.le_mul_of_pos_left _ (by omega)
  rw [shift10_strip k _ m 0 hm0 hm hfuel]
  simp

theorem shift10_wf : ∀ (f : Nat) (m e : Int), m ≠ 0 → m.natAbs ≤ f →
    (shift10 f m e).1 ≠ 0 ∧ (shift10 f m e).1 % 10 ≠ 0 := by
  intro f
  induction f with
  | zero =>
    intro m e hm0 hf
    exact absurd (Int.natAbs_eq_zero.mp (by omega)) hm0
  | succ g ih =>
    intro m e hm0 hf
    by_cases hmod : m % 10 = 0
    · obtain ⟨m', rfl⟩ := Int.dvd_of_emod_eq_zero hmod
      have hm' : m' ≠ 0 := by
        intro h0
        rw [h0, mul_zero] at hm0
        exact hm0 rfl
      unfold shift10
      rw [if_pos hmod, Int.mul_ediv_cancel_left m' (by norm_num)]
      apply ih m' (e + 1) hm'
      rw [Int.natAbs_mul] at hf
      have : 1 ≤ m'.natAbs := by
        have := Int.natAbs_eq_zero.not.mpr hm'
        omega
      norm_num at hf
      omega
    · unfold shift10
      rw [if_neg hmod]
      exact ⟨hm0, hmod⟩

theorem canonNum_wf (m e : Int) :
    ((canonNum m e).1 = 0 → (canonNum m e).2 = 0)
      ∧ ((canonNum m e).1 ≠ 0 → (canonNum m e).1 % 10 ≠ 0) := by
  unfold canonNum
  by_cases hm : m = 0
  · rw [if_pos hm]
    simp
  · rw [if_neg hm]
    have h := shift10_wf m.natAbs m e hm le_rfl
    exact ⟨fun h0 => absurd h0 h.1, fun _ => h.2⟩

theorem parseJsonNum_wf (s : List Char) (v : Json) (r : List Char)
    (h : parseJsonNum s = some (v, r)) : JsonWF v := by
  unfold parseJsonNum at h
  split at h
  · simp at h
  · simp only [Option.some.injEq, Prod.mk.injEq] at h
    rw [← h.1]
    exact JsonWF.wfNum _ _ (fun h0 => (canonNum_wf _ _).1 h0) (canonNum_wf _ _).2

theorem dictInsert_keys (d : List (List Char × Json)) (key : List Char) (v : Json) :
    (dictInsert d key v).map Prod.fst
      = if key ∈ d.map Prod.fst then d.map Prod.fst else d.map Prod.fst ++ [key] := by
  induction d with
  | nil => simp [dictInsert]
  | cons kv0 t ih =>
    obtain ⟨k0, v0⟩ := kv0
    by_cases hk : k0 = key
    · subst hk
      simp [dictInsert]
  
    · simp only [dictInsert, if_neg hk, List.map_cons, ih]
      by_cases hmem : key ∈ t.map Prod.fst
      · rw [if_pos hmem, if_pos (by simp [hmem])]
      · rw [if_neg hmem, if_neg (by simp [hmem, Ne.symm hk]), List.cons_append]

theorem dictInsert_keys_nodup (d : List (List Char × Json)) (key : List Char) (v : Json)
    (h : (d.map Prod.fst).Nodup) : ((dictInsert d key v).map Prod.fst).Nodup := by
  rw [dictInsert_keys]
  split
  · exact h
  · rw [List.nodup_append]
    refine ⟨h, List.nodup_singleton key, ?_⟩
    intro a ha hb
    rw [List.mem_singleton] at hb
    subst hb
    exact absurd ha (by assumption)

theorem dictInsert_mem (d : List (List Char × Json)) (key : List Char) (v : Json) :
    ∀ kv ∈ dictInsert d key v, kv ∈ d ∨ kv.2 = v := by
  induction d with
  | nil =>
    intro kv hkv
    simp [dictInsert] at hkv
    simp [hkv]
  | cons kv0 t ih =>
    obtain ⟨k0, v0⟩ := kv0
    intro kv hkv
    simp only [dictInsert] at hkv
    split at hkv
    · rcases List.mem_cons.mp hkv with rfl | h1
      · right; rfl
      · left; exact List.mem_cons.mpr (Or.inr h1)
    · rcases List.mem_cons.mp hkv with rfl | h1
      · left; exact List.mem_cons_self _ _
      · rcases ih kv h1 with h2 | h2
        · left; exact List.mem_cons.mpr (Or.inr h2)
        · right; exact h2

theorem dedupPairs_foldl_keys_nodup (ps : List (List Char × Json)) :
    ∀ d, (d.map Prod.fst).Nodup →
      ((ps.foldl (fun d kv => dictInsert d kv.1 kv.2) d).map Prod.fst).Nodup := by
  induction ps with
  | nil => intro d hd; simpa using hd
  | cons kv t ih =>
    intro d hd
    rw [List.foldl_cons]
    exact ih _ (dictInsert_keys_nodup d kv.1 kv.2 hd)

/-- The keys of a parsed object never repeat. -/
theorem dedupPairs_keys_nodup (ps : List (List Char × Json)) :
    ((dedupPairs ps).map Prod.fst).Nodup :=
  dedupPairs_foldl_keys_nodup ps [] (by simp)

theorem dedupPairs_foldl_values (ps : List (List Char × Json)) :
    ∀ d, ∀ kv ∈ ps.foldl (fun d kv => dictInsert d kv.1 kv.2) d,
      kv ∈ d ∨ ∃ kv' ∈ ps, kv.2 = kv'.2 := by
  induction ps with
  | nil =>
    intro d kv hkv
    exact Or.inl hkv
  | cons kv0 t ih =>
    intro d kv hkv
    rw [List.foldl_cons] at hkv
    rcases ih _ kv hkv with h1 | h1
    · rcases dictInsert_mem d kv0.1 kv0.2 kv h1 with h2 | h2
      · exact Or.inl h2
      · exact Or.inr ⟨kv0, List.mem_cons_self _ _, h2⟩
    · obtain ⟨kv', hkv', hval⟩ := h1
      exact Or.inr ⟨kv', List.mem_cons.mpr (Or.inr hkv'), hval⟩

/-- Every value in the deduplicated dict came from the raw member list. -/
theorem dedupPairs_values (ps : List (List Char × Json)) :
    ∀ kv ∈ dedupPairs ps, ∃ kv' ∈ ps, kv.2 = kv'.2 := by
  intro kv hkv
  rcases dedupPairs_foldl_values ps [] kv hkv with h | h
  · simp at h
  · exact h

mutual

theorem parseJsonVal_wf : ∀ (fuel : Nat) (s : List Char) (v : Json) (r : List Char),
    parseJsonVal fuel s = some (v, r) → JsonWF v
  | 0, s, v, r, h => by simp [parseJsonVal] at h
  | fuel + 1, s, v, r, h => by
    simp only [parseJsonVal] at h
    split at h
    · simp only [Option.some.injEq, Prod.mk.injEq] at h
      rw [← h.1]
      exact JsonWF.wfNull
    · simp only [Option.some.injEq, Prod.mk.injEq] at h
      rw [← h.1]
      exact JsonWF.wfBool _
    · simp only [Option.some.injEq, Prod.mk.injEq] at h
      rw [← h.1]
      exact JsonWF.wfBool _
    · rw [Option.map_eq_some'] at h
      obtain ⟨p, hp, he⟩ := h
      injection he with h1 h2
      rw [← h1]
      exact JsonWF.wfStr _
    · split at h
      · simp only [Option.some.injEq, Prod.mk.injEq] at h
        rw [← h.1]
        exact JsonWF.wfArr [] (by simp)
      · rw [Option.map_eq_some'] at h
        obtain ⟨p, hp, he⟩ := h
        injection he with h1 h2
        rw [← h1]
        exact JsonWF.wfArr _ (parseJsonElems_wf fuel _ _ _ hp)
    · split at h
      · simp only [Option.some.injEq, Prod.mk.injEq] at h
        rw [← h.1]
        exact JsonWF.wfObj [] (by simp) (by simp)
      · rw [Option.map_eq_some'] at h
        obtain ⟨p, hp, he⟩ := h
        injection he with h1 h2
        rw [← h1]
        refine JsonWF.wfObj _ (dedupPairs_keys_nodup _) ?_
        intro kv hkv
        obtain ⟨kv', hkv', hval⟩ := dedupPairs_values _ kv hkv
        rw [hval]
        exact parseJsonMembers_wf fuel _ _ _ hp kv' hkv'
    · split at h
      · exact parseJsonNum_wf _ _ _ h
      · simp at h
    · simp at h

theorem parseJsonElems_wf : ∀ (fuel : Nat) (s : List Char) (l : List Json) (r : List Char),
    parseJsonElems fuel s = some (l, r) → ∀ x ∈ l, JsonWF x
  | 0, s, l, r, h => by simp [parseJsonElems] at h
  | fuel + 1, s, l, r, h => by
    simp only [parseJsonElems] at h
    split at h
    · simp at h
    · rename_i v0 r0 heq
      split at h
      · rw [Option.map_eq_some'] at h
        obtain ⟨p, hp, he⟩ := h
        injection he with h1 h2
        rw [← h1]
        intro x hx
        rcases List.mem_cons.mp hx with rfl | hx
        · exact parseJsonVal_wf fuel _ _ _ heq
        · exact parseJsonElems_wf fuel _ _ _ hp x hx
      · simp only [Option.some.injEq, Prod.mk.injEq] at h
        rw [← h.1]
        intro x hx
        rw [List.mem_singleton] at hx
        subst hx
        exact parseJsonVal_wf fuel _ _ _ heq
      · simp at h

theorem parseJsonMembers_wf : ∀ (fuel : Nat) (s : List Char)
    (l : List (List Char × Json)) (r : List Char),
    parseJsonMembers fuel s = some (l, r) → ∀ kv ∈ l, JsonWF kv.2
  | 0, s, l, r, h => by simp [parseJsonMembers] at h
  | fuel + 1, s, l, r, h => by
    simp only [parseJsonMembers] at h
    split at h
    · split at h
      · simp at h
      · split at h
        · split at h
          · simp at h
          · rename_i v0 r0 heq
            split at h
            · rw [Option.map_eq_some'] at h
              obtain ⟨p, hp, he⟩ := h
              injection he with h1 h2
              rw [← h1]
              intro kv hkv
              rcases List.mem_cons.mp hkv with rfl | hkv
              · exact parseJsonVal_wf fuel _ _ _ heq
              · exact parseJsonMembers_wf fuel _ _ _ hp kv hkv
            · simp only [Option.some.injEq, Prod.mk.injEq] at h
              rw [← h.1]
              intro kv hkv
              rw [List.mem_singleton] at hkv
              subst hkv
              exact parseJsonVal_wf fuel _ _ _ heq
            · simp at h
        · simp at h
    · simp at h

end

/-- Whatever `json.loads` accepts is well-formed. -/
theorem jsonLoads_wf (s : List Char) (v : Json) (h : jsonLoads s = some v) : JsonWF v := by
  unfold jsonLoads at h
  split at h
  case _ v0 r0 heq =>
    split at h
    · simp only [Option.some.injEq] at h
      exact h ▸ parseJsonVal_wf _ _ _ _ heq
    · simp at h
  case _ => simp at h

/-! ## C2 machinery: whitespace, rendered heads, dict identity -/

theorem skipJsonWs_cons (c : Char) (t : List Char) :
    skipJsonWs (c :: t) = if jsonWs c then skipJsonWs t else c :: t := rfl

theorem skipJsonWs_ws_append (p s : List Char) (hp : ∀ c ∈ p, jsonWs c = true) :
    skipJsonWs (p ++ s) = skipJsonWs s := by
  induction p with
  | nil => simp
  | cons c t ih =>
    rw [List.cons_append, skipJsonWs_cons, if_pos (hp c (List.mem_cons_self c t))]
    exact ih (fun x hx => hp x (List.mem_cons.mpr (Or.inr hx)))

theorem skipJsonWs_cons_not (c : Char) (t : List Char) (hc : jsonWs c = false) :
    skipJsonWs (c :: t) = c :: t := by
  rw [skipJsonWs_cons, hc]
  simp

theorem jIndent_ws (n : Nat) : ∀ c ∈ jIndent n, jsonWs c = true := by
  intro c hc
  rw [List.eq_of_mem_replicate hc]
  rfl

theorem dictInsert_not_mem (d : List (List Char × Json)) (key : List Char) (v : Json)
    (h : key ∉ d.map Prod.fst) : dictInsert d key v = d ++ [(key, v)] := by
  induction d with
  | nil => rfl
  | cons kv0 t ih =>
    obtain ⟨k0, v0⟩ := kv0
    have hk : k0 ≠ key := by
      intro h0
      exact h (by simp [h0])
    simp only [dictInsert, if_neg hk, List.cons_append]
    rw [ih (fun hm => h (by simp [hm]))]

theorem dedupPairs_foldl_nodup_id (l : List (List Char × Json)) :
    ∀ d, (d.map Prod.fst ++ l.map Prod.fst).Nodup →
      l.foldl (fun d kv => dictInsert d kv.1 kv.2) d = d ++ l := by
  induction l with
  | nil => intro d _; simp
  | cons kv t ih =>
    intro d hd
    rw [List.foldl_cons]
    have hnotmem : kv.1 ∉ d.map Prod.fst := by
      rw [List.map_cons] at hd
      have h2 := (List.nodup_cons.mp (List.nodup_middle.mp hd)).1
      intro hm
      exact h2 (List.mem_append.mpr (Or.inl hm))
    rw [dictInsert_not_mem d kv.1 kv.2 hnotmem]
    have hside : ((d ++ [(kv.1, kv.2)]).map Prod.fst ++ t.map Prod.fst).Nodup := by
      rw [List.map_append]
      rw [List.map_cons] at hd
      simpa [List.append_assoc] using hd
    rw [ih _ hside]
    simp

/-- A dict built from a pair list with distinct keys is that list. -/
theorem dedupPairs_nodup_id (l : List (List Char × Json))
    (h : (l.map Prod.fst).Nodup) : dedupPairs l = l := by
  unfold dedupPairs
  rw [dedupPairs_foldl_nodup_id l [] (by simpa using h)]
  simp

/-! ## C2 machinery: string escape round trip -/

theorem hexDigVal_hexDigCh : ∀ x < 16, hexDigVal (hexDigCh x) = some x := by decide

theorem parseJsonStr_quote (rest : List Char) :
    parseJsonStr ('"' :: rest) = some ([], rest) := by
  rw [parseJsonStr.eq_def]
  simp

theorem parseJsonStr_simple_esc (e ch : Char) (rest : List Char) (he : e ≠ 'u')
    (hesc : simpleEsc e = some ch) :
    parseJsonStr ('\\' :: e :: rest)
      = (parseJsonStr rest).map (fun p => (ch :: p.1, p.2)) := by
  rw [parseJsonStr.eq_def]
  simp [he, hesc]

theorem parseJsonStr_raw (c : Char) (rest : List Char) (h1 : c ≠ '"') (h2 : c ≠ '\\')
    (h3 : ¬ c.toNat < 0x20) :
    parseJsonStr (c :: rest) = (parseJsonStr rest).map (fun p => (c :: p.1, p.2)) := by
  rw [parseJsonStr.eq_def]
  simp [h1, h2, h3]

theorem parseJsonUEsc_00 (a b : Char) (va vb : Nat) (rest : List Char)
    (ha : hexDigVal a = some va) (hb : hexDigVal b = some vb)
    (hlt : ((0 * 16 + 0) * 16 + va) * 16 + vb < 0xD800) :
    parseJsonUEsc ('0' :: '0' :: a :: b :: rest)
      = some (Char.ofNat (((0 * 16 + 0) * 16 + va) * 16 + vb),
          ⟨rest, by simp only [List.length_cons]; omega⟩) := by
  simp only [parseJsonUEsc]
  simp only [show hexDigVal '0' = some 0 from by decide, ha, hb]
  rw [if_pos (Or.inl hlt)]

theorem parseJsonStr_u00 (a b : Char) (va vb : Nat) (rest : List Char)
    (ha : hexDigVal a = some va) (hb : hexDigVal b = some vb)
    (hlt : ((0 * 16 + 0) * 16 + va) * 16 + vb < 0xD800) :
    parseJsonStr ('\\' :: 'u' :: '0' :: '0' :: a :: b :: rest)
      = (parseJsonStr rest).map
          (fun p => (Char.ofNat (((0 * 16 + 0) * 16 + va) * 16 + vb) :: p.1, p.2)) := by
  rw [parseJsonStr.eq_def]
  simp [parseJsonUEsc_00 a b va vb rest ha hb hlt]

theorem parseJsonStr_dump (s rest : List Char) :
    parseJsonStr ((s.map escJsonChar).flatten ++ '"' :: rest) = some (s, rest) := by
  induction s with
  | nil =>
    rw [List.map_nil, List.flatten_nil, List.nil_append]
    exact parseJsonStr_quote rest
  | cons c t ih =>
    rw [List.map_cons, List.flatten_cons, List.append_assoc]
    by_cases h1 : c = '"'
    · subst h1
      rw [show escJsonChar '"' = ['\\', '"'] from by decide]
      simp only [List.cons_append, List.nil_append]
      rw [parseJsonStr_simple_esc '"' '"' _ (by decide) (by decide), ih]
      rfl
    · by_cases h2 : c = '\\'
      · subst h2
        rw [show escJsonChar '\\' = ['\\', '\\'] from by decide]
        simp only [List.cons_append, List.nil_append]
        rw [parseJsonStr_simple_esc '\\' '\\' _ (by decide) (by decide), ih]
        rfl
      · by_cases h3 : c = '\n'
        · subst h3
          rw [show escJsonChar '\n' = ['\\', 'n'] from by decide]
          simp only [List.cons_append, List.nil_append]
          rw [parseJsonStr_simple_esc 'n' '\n' _ (by decide) (by decide), ih]
          rfl
        · by_cases h4 : c = '\t'
          · subst h4
            rw [show escJsonChar '\t' = ['\\', 't'] from by decide]
            simp only [List.cons_append, List.nil_append]
            rw [parseJsonStr_simple_esc 't' '\t' _ (by decide) (by decide), ih]
            rfl
          · by_cases h5 : c = '\r'
            · subst h5
              rw [show escJsonChar '\r' = ['\\', 'r'] from by decide]
              simp only [List.cons_append, List.nil_append]
              rw [parseJsonStr_simple_esc 'r' '\r' _ (by decide) (by decide), ih]
              rfl
            · by_cases h6 : c = '\x08'
              · subst h6
                rw [show escJsonChar '\x08' = ['\\', 'b'] from by decide]
                simp only [List.cons_append, List.nil_append]
                rw [parseJsonStr_simple_esc 'b' '\x08' _ (by decide) (by decide), ih]
                rfl
              · by_cases h7 : c = '\x0c'
                · subst h7
                  rw [show escJsonChar '\x0c' = ['\\', 'f'] from by decide]
                  simp only [List.cons_append, List.nil_append]
                  rw [parseJsonStr_simple_esc 'f' '\x0c' _ (by decide) (by decide), ih]
                  rfl
                · by_cases h8 : c.toNat < 0x20
                  · simp only [escJsonChar, if_neg h1, if_neg h2, if_neg h3, if_neg h4,
                      if_neg h5, if_neg h6, if_neg h7, if_pos h8,
                      List.cons_append, List.nil_append]
                    have hu1 : hexDigVal (hexDigCh (c.toNat / 16)) = some (c.toNat / 16) :=
                      hexDigVal_hexDigCh _ (by omega)
                    have hu2 : hexDigVal (hexDigCh (c.toNat % 16)) = some (c.toNat % 16) :=
                      hexDigVal_hexDigCh _ (by omega)
                    rw [parseJsonStr_u00 _ _ _ _ _ hu1 hu2 (by omega), ih]
                    have hv : ((0 * 16 + 0) * 16 + c.toNat / 16) * 16 + c.toNat % 16
                        = c.toNat := by omega
                    rw [hv, Char.ofNat_toNat]
                    rfl
                  · simp only [escJsonChar, if_neg h1, if_neg h2, if_neg h3, if_neg h4,
                      if_neg h5, if_neg h6, if_neg h7, if_neg h8,
                      List.cons_append, List.nil_append]
                    rw [parseJsonStr_raw c _ h1 h2 h8, ih]
                    rfl


/-! ## C2 machinery: number round trip -/

theorem jnumDelim_head (c : Char) (t : List Char) (h : jnumDelim (c :: t) = true) :
    isDigitCh c = false ∧ c ≠ '.' ∧ c ≠ 'e' ∧ c ≠ 'E' := by
  simp only [jnumDelim, Bool.not_eq_true', Bool.or_eq_false_iff] at h
  refine ⟨h.1.1.1, ?_, ?_, ?_⟩
  · have := h.1.1.2; simp_all
  · have := h.1.2; simp_all
  · have := h.2; simp_all

theorem digits_stop (rest : List Char) (h : jnumDelim rest = true) :
    rest.takeWhile isDigitCh = [] ∧ rest.dropWhile isDigitCh = rest := by
  cases rest with
  | nil => simp
  | cons c t =>
    have hd := (jnumDelim_head c t h).1
    rw [List.takeWhile_cons, List.dropWhile_cons]
    simp [hd]

theorem parseNegSign_not (s : List Char) (h : ∀ c, s.head? = some c → c ≠ '-') :
    parseNegSign s = (false, s) := by
  cases s with
  | nil => rfl
  | cons c t =>
    simp only [parseNegSign]
    rw [if_neg (h c rfl)]

theorem parseNegSign_minus (r : List Char) : parseNegSign ('-' :: r) = (true, r) := by
  simp [parseNegSign]

theorem parseIntPart_zero (rest : List Char) :
    parseIntPart ('0' :: rest) = some (['0'], rest) := by
  simp [parseIntPart]
  decide

theorem parseIntPart_run (c : Char) (tl rest : List Char)
    (hc : isDigitCh c = true) (hc0 : c ≠ '0')
    (htl : ∀ x ∈ tl, isDigitCh x = true)
    (hrest : rest.takeWhile isDigitCh = [] ∧ rest.dropWhile isDigitCh = rest) :
    parseIntPart (c :: (tl ++ rest)) = some (c :: tl, rest) := by
  simp only [parseIntPart]
  rw [if_pos hc, if_neg hc0]
  rw [takeWhile_all_append _ _ _ htl, dropWhile_all_append _ _ _ htl, hrest.1, hrest.2,
    List.append_nil]

theorem parseFracPart_none (s : List Char) (h : ∀ c, s.head? = some c → c ≠ '.') :
    parseFracPart s = ([], s) := by
  cases s with
  | nil => rfl
  | cons c t =>
    simp only [parseFracPart]
    rw [if_neg (h c rfl)]

theorem parseFracPart_digits (F rest : List Char) (hne : F ≠ [])
    (hF : ∀ x ∈ F, isDigitCh x = true)
    (hrest : rest.takeWhile isDigitCh = [] ∧ rest.dropWhile isDigitCh = rest) :
    parseFracPart ('.' :: (F ++ rest)) = (F, rest) := by
  simp only [parseFracPart, if_true]
  rw [takeWhile_all_append _ _ _ hF, dropWhile_all_append _ _ _ hF, hrest.1, hrest.2,
    List.append_nil]
  rw [if_neg (by simpa using hne)]

theorem parseExpPart_none (s : List Char) (h : ∀ c, s.head? = some c → c ≠ 'e' ∧ c ≠ 'E') :
    parseExpPart s = (0, s) := by
  cases s with
  | nil => rfl
  | cons c t =>
    simp only [parseExpPart]
    rw [if_neg (by
      intro hor
      rcases hor with h1 | h1
      · exact (h c rfl).1 h1
      · exact (h c rfl).2 h1)]

theorem jnumDelim_props (rest : List Char) (h : jnumDelim rest = true) :
    (∀ c, rest.head? = some c → c ≠ '.')
      ∧ (∀ c, rest.head? = some c → c ≠ 'e' ∧ c ≠ 'E') := by
  cases rest with
  | nil => exact ⟨by simp, by simp⟩
  | cons c t =>
    obtain ⟨h1, h2, h3, h4⟩ := jnumDelim_head c t h
    refine ⟨?_, ?_⟩
    · intro x hx
      rw [List.head?_cons, Option.some.injEq] at hx
      exact hx ▸ h2
    · intro x hx
      rw [List.head?_cons, Option.some.injEq] at hx
      exact hx ▸ ⟨h3, h4⟩

theorem digitCh_ne (c d : Char) (hc : isDigitCh c = true) (hd : isDigitCh d = false) :
    c ≠ d := by
  intro h
  rw [h, hd] at hc
  exact Bool.noConfusion hc

theorem natLit_head_digits (n : Nat) :
    ∃ c t, natLit n = c :: t ∧ isDigitCh c = true
      ∧ (∀ x ∈ t, isDigitCh x = true) ∧ (n ≠ 0 → c ≠ '0') := by
  match h : natLit n with
  | [] => exact absurd h (natLit_ne_nil n)
  | c :: t =>
    refine ⟨c, t, rfl, ?_, ?_, ?_⟩
    · exact natLit_all_digits n c (h ▸ List.mem_cons_self c t)
    · intro x hx
      exact natLit_all_digits n x (h ▸ List.mem_cons.mpr (Or.inr hx))
    · intro hn
      unfold natLit at h
      rw [if_neg hn] at h
      exact natDigsMSF_head_ne_zero n hn c t h

theorem parseJsonNum_intShape (neg : Bool) (ds rest : List Char)
    (hip : parseIntPart (ds ++ rest) = some (ds, rest))
    (hhead : ∀ c, (ds ++ rest).head? = some c → c ≠ '-')
    (hrest : jnumDelim rest = true) :
    parseJsonNum ((if neg then ['-'] else []) ++ (ds ++ rest))
      = some (.jnum
          (canonNum ((if neg then (-1 : Int) else 1) * (digitsToNat ds : Int)) 0).1
          (canonNum ((if neg then (-1 : Int) else 1) * (digitsToNat ds : Int)) 0).2,
          rest) := by
  obtain ⟨hd1, hd2⟩ := jnumDelim_props rest hrest
  have h3 : parseFracPart rest = ([], rest) := parseFracPart_none rest hd1
  have h4 : parseExpPart rest = (0, rest) := parseExpPart_none rest hd2
  cases neg with
  | false =>
    have hns : parseNegSign (ds ++ rest) = (false, ds ++ rest) := parseNegSign_not _ hhead
    simp only [if_neg (by decide : ¬ (false = true)), List.nil_append]
    unfold parseJsonNum
    rw [hns, hip]
    norm_num [h3, h4, show digitsToNat [] = 0 from rfl]
  | true =>
    have hns : parseNegSign ('-' :: (ds ++ rest)) = (true, ds ++ rest) :=
      parseNegSign_minus _
    simp only [eq_self_iff_true, if_true, List.cons_append, List.nil_append]
    unfold parseJsonNum
    rw [hns, hip]
    norm_num [h3, h4, show digitsToNat [] = 0 from rfl]

theorem parseJsonNum_fracShape (neg : Bool) (I F rest : List Char)
    (hip : parseIntPart (I ++ '.' :: (F ++ rest)) = some (I, '.' :: (F ++ rest)))
    (hhead : ∀ c, (I ++ '.' :: (F ++ rest)).head? = some c → c ≠ '-')
    (hFne : F ≠ []) (hFd : ∀ x ∈ F, isDigitCh x = true)
    (hrest : jnumDelim rest = true) :
    parseJsonNum ((if neg then ['-'] else []) ++ (I ++ '.' :: (F ++ rest)))
      = some (.jnum
          (canonNum ((if neg then (-1 : Int) else 1)
            * ((digitsToNat I : Int) * 10 ^ F.length + (digitsToNat F : Int)))
            (0 - F.length)).1
          (canonNum ((if neg then (-1 : Int) else 1)
            * ((digitsToNat I : Int) * 10 ^ F.length + (digitsToNat F : Int)))
            (0 - F.length)).2,
          rest) := by
  obtain ⟨hd1, hd2⟩ := jnumDelim_props rest hrest
  have hstop := digits_stop rest hrest
  have h3 : parseFracPart ('.' :: (F ++ rest)) = (F, rest) :=
    parseFracPart_digits F rest hFne hFd hstop
  have h4 : parseExpPart rest = (0, rest) := parseExpPart_none rest hd2
  cases neg with
  | false =>
    have hns : parseNegSign (I ++ '.' :: (F ++ rest)) = (false, I ++ '.' :: (F ++ rest)) :=
      parseNegSign_not _ hhead
    simp only [if_neg (by decide : ¬ (false = true)), List.nil_append]
    unfold parseJsonNum
    rw [hns, hip]
    norm_num [h3, h4]
  | true =>
    have hns : parseNegSign ('-' :: (I ++ '.' :: (F ++ rest)))
        = (true, I ++ '.' :: (F ++ rest)) := parseNegSign_minus _
    simp only [eq_self_iff_true, if_true, List.cons_append, List.nil_append]
    unfold parseJsonNum
    rw [hns, hip]
    norm_num [h3, h4]

theorem parseJsonNum_decFinish (m e : Int) (P rest : List Char)
    (hmod : m % 10 ≠ 0) (he : e < 0) (hP : (-e).toNat < P.length)
    (hPval : digitsToNat P = m.natAbs)
    (hFd : ∀ x ∈ P.drop (P.length - (-e).toNat), isDigitCh x = true)
    (hip : parseIntPart (P.take (P.length - (-e).toNat)
        ++ '.' :: (P.drop (P.length - (-e).toNat) ++ rest))
      = some (P.take (P.length - (-e).toNat),
          '.' :: (P.drop (P.length - (-e).toNat) ++ rest)))
    (hhead : ∀ c, (P.take (P.length - (-e).toNat)
        ++ '.' :: (P.drop (P.length - (-e).toNat) ++ rest)).head? = some c → c ≠ '-')
    (hrest : jnumDelim rest = true) :
    parseJsonNum (((if m < 0 then ['-'] else [])
        ++ P.take (P.length - (-e).toNat) ++ '.' :: P.drop (P.length - (-e).toNat)) ++ rest)
      = some (.jnum m e, rest) := by
  have hk1 : 1 ≤ (-e).toNat := by omega
  have hFlen : (P.drop (P.length - (-e).toNat)).length = (-e).toNat := by
    rw [List.length_drop]
    omega
  have hFne : P.drop (P.length - (-e).toNat) ≠ [] := by
    intro h0
    rw [h0] at hFlen
    simp at hFlen
    omega
  have hIF : digitsToNat (P.take (P.length - (-e).toNat))
        * 10 ^ (P.drop (P.length - (-e).toNat)).length
        + digitsToNat (P.drop (P.length - (-e).toNat)) = m.natAbs := by
    have h2 := digitsToNat_append (P.take (P.length - (-e).toNat))
      (P.drop (P.length - (-e).toNat))
    rw [List.take_append_drop] at h2
    rw [← h2]
    exact hPval
  have h2 : (digitsToNat (P.take (P.length - (-e).toNat)) : Int)
        * 10 ^ (P.drop (P.length - (-e).toNat)).length
        + (digitsToNat (P.drop (P.length - (-e).toNat)) : Int) = (m.natAbs : Int) := by
    exact_mod_cast hIF
  have key : ∀ X E : Int, X = m → E = e →
      (some (.jnum (canonNum X E).1 (canonNum X E).2, rest) : Option (Json × List Char))
        = some (.jnum m e, rest) := by
    intro X E hX hE
    rw [hX, hE, canonNum_fixed m e hmod]
  have harr : ((if m < 0 then ['-'] else ([] : List Char))
        ++ P.take (P.length - (-e).toNat) ++ '.' :: P.drop (P.length - (-e).toNat)) ++ rest
      = (if m < 0 then ['-'] else [])
        ++ (P.take (P.length - (-e).toNat)
          ++ '.' :: (P.drop (P.length - (-e).toNat) ++ rest)) := by
    simp [List.append_assoc]
  rw [harr]
  by_cases hneg : m < 0
  · rw [if_pos hneg]
    have hshape := parseJsonNum_fracShape true (P.take (P.length - (-e).toNat))
      (P.drop (P.length - (-e).toNat)) rest hip hhead hFne hFd hrest
    simp only [eq_self_iff_true, if_true, List.singleton_append] at hshape
    rw [show (['-'] : List Char)
        ++ (P.take (P.length - (-e).toNat)
          ++ '.' :: (P.drop (P.length - (-e).toNat) ++ rest))
      = '-' :: (P.take (P.length - (-e).toNat)
          ++ '.' :: (P.drop (P.length - (-e).toNat) ++ rest)) from List.singleton_append]
    rw [hshape]
    apply key
    · rw [h2]
      omega
    · rw [hFlen]
      omega
  · rw [if_neg hneg]
    have hshape := parseJsonNum_fracShape false (P.take (P.length - (-e).toNat))
      (P.drop (P.length - (-e).toNat)) rest hip hhead hFne hFd hrest
    simp only [Bool.false_eq_true, if_false, List.nil_append] at hshape
    rw [List.nil_append, hshape]
    apply key
    · rw [h2]
      omega
    · rw [hFlen]
      omega

theorem parseJsonNum_dump (m e : Int)
    (hwf0 : m = 0 → e = 0) (hwf1 : m ≠ 0 → m % 10 ≠ 0)
    (rest : List Char) (hrest : jnumDelim rest = true) :
    parseJsonNum (dumpJsonNum m e ++ rest) = some (.jnum m e, rest) := by
  by_cases hm0 : m = 0
  · have he0 : e = 0 := hwf0 hm0
    subst hm0
    subst he0
    have hd : dumpJsonNum 0 0 = ['0'] := by decide
    have hip : parseIntPart (['0'] ++ rest) = some (['0'], rest) := by
      rw [List.singleton_append]
      exact parseIntPart_zero rest
    have hhead : ∀ c, ((['0'] : List Char) ++ rest).head? = some c → c ≠ '-' := by
      intro c hc
      rw [List.singleton_append, List.head?_cons, Option.some.injEq] at hc
      exact hc ▸ (by decide)
    have hshape := parseJsonNum_intShape false ['0'] rest hip hhead hrest
    simp only [Bool.false_eq_true, if_false, List.nil_append] at hshape
    rw [hd, hshape]
    norm_num [show digitsToNat ['0'] = 0 from rfl, show canonNum 0 0 = (0, 0) from by decide]
  · have hmod := hwf1 hm0
    by_cases hepos : 0 ≤ e
    · have hNne : m.natAbs * 10 ^ e.toNat ≠ 0 :=
        Nat.mul_ne_zero (Int.natAbs_ne_zero.mpr hm0) (pow_ne_zero _ (by norm_num))
      obtain ⟨c, t, hclit, hcd, htd, hc0⟩ := natLit_head_digits (m.natAbs * 10 ^ e.toNat)
      have hc0' := hc0 hNne
      have hstop := digits_stop rest hrest
      have hip : parseIntPart ((c :: t) ++ rest) = some (c :: t, rest) := by
        rw [List.cons_append]
        exact parseIntPart_run c t rest hcd hc0' htd hstop
      have hhead : ∀ x, ((c :: t) ++ rest).head? = some x → x ≠ '-' := by
        intro x hx
        rw [List.cons_append, List.head?_cons, Option.some.injEq] at hx
        exact hx ▸ digitCh_ne c '-' hcd (by decide)
      have key0 : ∀ X : Int, X = m * 10 ^ e.toNat →
          (some (.jnum (canonNum X 0).1 (canonNum X 0).2, rest) : Option (Json × List Char))
            = some (.jnum m e, rest) := by
        intro X hX
        rw [hX, canonNum_strip m e.toNat hmod, Int.toNat_of_nonneg hepos]
      by_cases hneg : m < 0
      · have hform : dumpJsonNum m e ++ rest = '-' :: ((c :: t) ++ rest) := by
          simp only [dumpJsonNum]
          rw [if_pos hepos, if_pos hneg, hclit]
          simp
        have hshape := parseJsonNum_intShape true (c :: t) rest hip hhead hrest
        simp only [eq_self_iff_true, if_true, List.singleton_append] at hshape
        rw [hform, hshape]
        apply key0
        rw [← hclit, digitsToNat_natLit]
        push_cast
        rw [abs_of_neg hneg]
        ring
      · have hform : dumpJsonNum m e ++ rest = (c :: t) ++ rest := by
          simp only [dumpJsonNum]
          rw [if_pos hepos, if_neg hneg, hclit]
          simp
        have hshape := parseJsonNum_intShape false (c :: t) rest hip hhead hrest
        simp only [Bool.false_eq_true, if_false, List.nil_append] at hshape
        rw [hform, hshape]
        apply key0
        rw [← hclit, digitsToNat_natLit]
        push_cast
        rw [abs_of_nonneg (not_lt.mp hneg)]
        ring
    · have he : e < 0 := by omega
      have hdsne : natLit m.natAbs ≠ [] := natLit_ne_nil _
      have hdslen : 1 ≤ (natLit m.natAbs).length := by
        cases h : natLit m.natAbs with
        | nil => exact absurd h hdsne
        | cons a l => simp
      have hk1 : 1 ≤ (-e).toNat := by omega
      have hdot : isDigitCh '.' = false := by decide
      by_cases hpad : (natLit m.natAbs).length ≤ (-e).toNat
      · -- zero-padded: the integer part is a single '0'
        have hform : dumpJsonNum m e
            = (if m < 0 then ['-'] else [])
              ++ (List.replicate ((-e).toNat + 1 - (natLit m.natAbs).length) '0'
                  ++ natLit m.natAbs).take
                ((List.replicate ((-e).toNat + 1 - (natLit m.natAbs).length) '0'
                  ++ natLit m.natAbs).length - (-e).toNat)
              ++ '.' :: (List.replicate ((-e).toNat + 1 - (natLit m.natAbs).length) '0'
                  ++ natLit m.natAbs).drop
                ((List.replicate ((-e).toNat + 1 - (natLit m.natAbs).length) '0'
                  ++ natLit m.natAbs).length - (-e).toNat) := by
          simp only [dumpJsonNum]
          rw [if_neg hepos, if_pos hpad]
        have hPlen : (List.replicate ((-e).toNat + 1 - (natLit m.natAbs).length) '0'
            ++ natLit m.natAbs).length = (-e).toNat + 1 := by
          rw [List.length_append, List.length_replicate]
          omega
        have hP : (-e).toNat < (List.replicate ((-e).toNat + 1 - (natLit m.natAbs).length) '0'
            ++ natLit m.natAbs).length := by
          rw [hPlen]
          omega
        have hPd : ∀ x ∈ List.replicate ((-e).toNat + 1 - (natLit m.natAbs).length) '0'
            ++ natLit m.natAbs, isDigitCh x = true := by
          intro x hx
          rcases List.mem_append.mp hx with h | h
          · rw [List.eq_of_mem_replicate h]
            decide
          · exact natLit_all_digits _ x h
        have hPval : digitsToNat (List.replicate ((-e).toNat + 1 - (natLit m.natAbs).length) '0'
            ++ natLit m.natAbs) = m.natAbs := by
          rw [digitsToNat_append, digitsToNat_zeros, digitsToNat_natLit, zero_mul, zero_add]
        have hI0 : (List.replicate ((-e).toNat + 1 - (natLit m.natAbs).length) '0'
            ++ natLit m.natAbs).take
              ((List.replicate ((-e).toNat + 1 - (natLit m.natAbs).length) '0'
                ++ natLit m.natAbs).length - (-e).toNat) = ['0'] := by
          rw [hPlen]
          rw [show (-e).toNat + 1 - (-e).toNat = 1 from by omega]
          rw [show (-e).toNat + 1 - (natLit m.natAbs).length
            = ((-e).toNat + 1 - (natLit m.natAbs).length - 1) + 1 from by omega]
          rw [List.replicate_succ, List.cons_append, List.take_succ_cons, List.take_zero]
        have hfd : ∀ x ∈ (List.replicate ((-e).toNat + 1 - (natLit m.natAbs).length) '0'
            ++ natLit m.natAbs).drop
              ((List.replicate ((-e).toNat + 1 - (natLit m.natAbs).length) '0'
                ++ natLit m.natAbs).length - (-e).toNat), isDigitCh x = true :=
          fun x hx => hPd x (List.drop_subset _ _ hx)
        have hip : parseIntPart ((List.replicate ((-e).toNat + 1 - (natLit m.natAbs).length) '0'
              ++ natLit m.natAbs).take
                ((List.replicate ((-e).toNat + 1 - (natLit m.natAbs).length) '0'
                  ++ natLit m.natAbs).length - (-e).toNat)
              ++ '.' :: ((List.replicate ((-e).toNat + 1 - (natLit m.natAbs).length) '0'
                  ++ natLit m.natAbs).drop
                ((List.replicate ((-e).toNat + 1 - (natLit m.natAbs).length) '0'
                  ++ natLit m.natAbs).length - (-e).toNat) ++ rest))
            = some ((List.replicate ((-e).toNat + 1 - (natLit m.natAbs).length) '0'
              ++ natLit m.natAbs).take
                ((List.replicate ((-e).toNat + 1 - (natLit m.natAbs).length) '0'
                  ++ natLit m.natAbs).length - (-e).toNat),
              '.' :: ((List.replicate ((-e).toNat + 1 - (natLit m.natAbs).length) '0'
                  ++ natLit m.natAbs).drop
                ((List.replicate ((-e).toNat + 1 - (natLit m.natAbs).length) '0'
                  ++ natLit m.natAbs).length - (-e).toNat) ++ rest)) := by
          rw [hI0, List.singleton_append]
          exact parseIntPart_zero _
        have hhead : ∀ x, ((List.replicate ((-e).toNat + 1 - (natLit m.natAbs).length) '0'
              ++ natLit m.natAbs).take
                ((List.replicate ((-e).toNat + 1 - (natLit m.natAbs).length) '0'
                  ++ natLit m.natAbs).length - (-e).toNat)
              ++ '.' :: ((List.replicate ((-e).toNat + 1 - (natLit m.natAbs).length) '0'
                  ++ natLit m.natAbs).drop
                ((List.replicate ((-e).toNat + 1 - (natLit m.natAbs).length) '0'
                  ++ natLit m.natAbs).length - (-e).toNat) ++ rest)).head? = some x
              → x ≠ '-' := by
          intro x hx
          rw [hI0, List.singleton_append, List.head?_cons, Option.some.injEq] at hx
          exact hx ▸ (by decide)
        rw [hform]
        exact parseJsonNum_decFinish m e _ rest hmod he hP hPval hfd hip hhead hrest
      · -- no padding: the digits of |m| themselves straddle the point
        have hklen : (-e).toNat < (natLit m.natAbs).length := by omega
        have hform : dumpJsonNum m e
            = (if m < 0 then ['-'] else [])
              ++ (natLit m.natAbs).take ((natLit m.natAbs).length - (-e).toNat)
              ++ '.' :: (natLit m.natAbs).drop ((natLit m.natAbs).length - (-e).toNat) := by
          simp only [dumpJsonNum]
          rw [if_neg hepos, if_neg hpad]
        have hPval : digitsToNat (natLit m.natAbs) = m.natAbs := digitsToNat_natLit _
        obtain ⟨c, t, hclit, hcd, htd, hc0⟩ := natLit_head_digits m.natAbs
        have hc0' := hc0 (Int.natAbs_ne_zero.mpr hm0)
        obtain ⟨j, hj⟩ : ∃ j, (natLit m.natAbs).length - (-e).toNat = j + 1 :=
          ⟨(natLit m.natAbs).length - (-e).toNat - 1, by omega⟩
        have hI0 : (natLit m.natAbs).take ((natLit m.natAbs).length - (-e).toNat)
            = c :: t.take j := by
          rw [hj, hclit, List.take_succ_cons]
        have hfd : ∀ x ∈ (natLit m.natAbs).drop ((natLit m.natAbs).length - (-e).toNat),
            isDigitCh x = true :=
          fun x hx => natLit_all_digits _ x (List.drop_subset _ _ hx)
        have hstop2 : ('.' :: ((natLit m.natAbs).drop ((natLit m.natAbs).length - (-e).toNat)
              ++ rest)).takeWhile isDigitCh = []
            ∧ ('.' :: ((natLit m.natAbs).drop ((natLit m.natAbs).length - (-e).toNat)
              ++ rest)).dropWhile isDigitCh
              = '.' :: ((natLit m.natAbs).drop ((natLit m.natAbs).length - (-e).toNat)
                ++ rest) := by
          constructor
          · rw [List.takeWhile_cons, hdot]
            simp
          · rw [List.dropWhile_cons, hdot]
            simp
        have hip : parseIntPart ((natLit m.natAbs).take ((natLit m.natAbs).length - (-e).toNat)
              ++ '.' :: ((natLit m.natAbs).drop ((natLit m.natAbs).length - (-e).toNat) ++ rest))
            = some ((natLit m.natAbs).take ((natLit m.natAbs).length - (-e).toNat),
              '.' :: ((natLit m.natAbs).drop ((natLit m.natAbs).length - (-e).toNat) ++ rest)) := by
          rw [hI0, List.cons_append]
          exact parseIntPart_run c _ _ hcd hc0'
            (fun x hx => htd x (List.take_subset _ _ hx)) hstop2
        have hhead : ∀ x, ((natLit m.natAbs).take ((natLit m.natAbs).length - (-e).toNat)
              ++ '.' :: ((natLit m.natAbs).drop ((natLit m.natAbs).length - (-e).toNat) ++ rest)).head?
              = some x → x ≠ '-' := by
          intro x hx
          rw [hI0, List.cons_append, List.head?_cons, Option.some.injEq] at hx
          exact hx ▸ digitCh_ne c '-' hcd (by decide)
        rw [hform]
        exact parseJsonNum_decFinish m e _ rest hmod he hklen hPval hfd hip hhead hrest

theorem digit_not_ws (c : Char) (hc : isDigitCh c = true) : jsonWs c = false := by
  have h1 := digitCh_ne c ' ' hc (by decide)
  have h2 := digitCh_ne c '\t' hc (by decide)
  have h3 := digitCh_ne c '\n' hc (by decide)
  have h4 := digitCh_ne c '\r' hc (by decide)
  simp [jsonWs, h1, h2, h3, h4]

theorem jnumDelim_cons (c : Char) (t : List Char) :
    jnumDelim (c :: t) = !(isDigitCh c || c = '.' || c = 'e' || c = 'E') := rfl

theorem jsize_pos (v : Json) : 1 ≤ jsize v := by
  cases v <;> simp [jsize]

/-- The rendered number starts with a minus sign or a digit. -/
theorem dumpJsonNum_head (m e : Int) :
    ∃ c t, dumpJsonNum m e = c :: t ∧ (c = '-' ∨ isDigitCh c = true) := by
  by_cases hneg : m < 0
  · by_cases hepos : 0 ≤ e
    · simp only [dumpJsonNum]
      rw [if_pos hepos, if_pos hneg, List.singleton_append]
      exact ⟨'-', _, rfl, Or.inl rfl⟩
    · simp only [dumpJsonNum]
      rw [if_neg hepos, if_pos hneg, List.append_assoc, List.singleton_append]
      exact ⟨'-', _, rfl, Or.inl rfl⟩
  · by_cases hepos : 0 ≤ e
    · simp only [dumpJsonNum]
      rw [if_pos hepos, if_neg hneg, List.nil_append]
      obtain ⟨c, t, hct, hcd, -, -⟩ := natLit_head_digits (m.natAbs * 10 ^ e.toNat)
      exact ⟨c, t, hct, Or.inr hcd⟩
  -- e < 0: the head is the first (digit) character of the padded digit string
    · simp only [dumpJsonNum]
      rw [if_neg hepos, if_neg hneg, List.nil_append]
      have hdsne : natLit m.natAbs ≠ [] := natLit_ne_nil _
      have hdslen : 1 ≤ (natLit m.natAbs).length := by
        cases h : natLit m.natAbs with
        | nil => exact absurd h hdsne
        | cons a l => simp
      by_cases hpad : (natLit m.natAbs).length ≤ (-e).toNat
      · rw [if_pos hpad]
        have hPlen : (List.replicate ((-e).toNat + 1 - (natLit m.natAbs).length) '0'
            ++ natLit m.natAbs).length = (-e).toNat + 1 := by
          rw [List.length_append, List.length_replicate]
          omega
        cases hP : List.replicate ((-e).toNat + 1 - (natLit m.natAbs).length) '0'
            ++ natLit m.natAbs with
        | nil =>
          rw [hP] at hPlen
          simp at hPlen
        | cons p0 pt =>
          have hp0 : isDigitCh p0 = true := by
            have hmem : p0 ∈ List.replicate ((-e).toNat + 1 - (natLit m.natAbs).length) '0'
                ++ natLit m.natAbs := hP ▸ List.mem_cons_self p0 pt
            rcases List.mem_append.mp hmem with h | h
            · rw [List.eq_of_mem_replicate h]
              decide
            · exact natLit_all_digits _ p0 h
          have hlen2 : (p0 :: pt).length = (-e).toNat + 1 := by
            rw [← hP]
            exact hPlen
          rw [show (p0 :: pt).length - (-e).toNat
            = ((p0 :: pt).length - (-e).toNat - 1) + 1 from by omega]
          rw [List.take_succ_cons, List.cons_append]
          exact ⟨p0, _, rfl, Or.inr hp0⟩
      · rw [if_neg hpad]
        obtain ⟨c, t, hct, hcd, -, -⟩ := natLit_head_digits m.natAbs
        rw [hct]
        rw [show (c :: t).length - (-e).toNat
          = ((c :: t).length - (-e).toNat - 1) + 1 from by
            rw [← hct]
            omega]
        rw [List.take_succ_cons, List.cons_append]
        exact ⟨c, _, rfl, Or.inr hcd⟩

/-- A rendered value starts with a non-whitespace character that is not a
    closing bracket, closing brace, or comma. -/
theorem dumpVal_head (ind : Nat) (v : Json) :
    ∃ c t, dumpJsonVal ind v = c :: t ∧ jsonWs c = false
      ∧ c ≠ ']' ∧ c ≠ '\x7d' := by
  cases v with
  | jnull => exact ⟨'n', _, rfl, by decide, by decide, by decide⟩
  | jbool b =>
    cases b with
    | true => refine ⟨'t', _, rfl, ?_, ?_, ?_⟩ <;> decide
    | false => refine ⟨'f', _, rfl, ?_, ?_, ?_⟩ <;> decide
  | jnum m e =>
    obtain ⟨c, t, hct, hc⟩ := dumpJsonNum_head m e
    refine ⟨c, t, hct, ?_, ?_, ?_⟩
    · rcases hc with h | h
      · rw [h]
        decide
      · exact digit_not_ws c h
    · rcases hc with h | h
      · rw [h]
        decide
      · exact digitCh_ne c ']' h (by decide)
    · rcases hc with h | h
      · rw [h]
        decide
      · exact digitCh_ne c '\x7d' h (by decide)
  | jstr s => exact ⟨'"', _, rfl, by decide, by decide, by decide⟩
  | jarr l =>
    cases l with
    | nil => exact ⟨'[', _, rfl, by decide, by decide, by decide⟩
    | cons x xs => exact ⟨'[', _, rfl, by decide, by decide, by decide⟩
  | jobj l =>
    cases l with
    | nil => exact ⟨'\x7b', _, rfl, by decide, by decide, by decide⟩
    | cons kv ms => exact ⟨'\x7b', _, rfl, by decide, by decide, by decide⟩

mutual

/-- Re-parsing a rendered value needs no more fuel than its length plus one
    unit per parser call; the rendering is at least that long. -/
theorem jsize_le_dumpVal (ind : Nat) (v : Json) : jsize v ≤ (dumpJsonVal ind v).length :=
  match v with
  | .jnull => by simp [jsize, dumpJsonVal]
  | .jbool true => by simp [jsize, dumpJsonVal]
  | .jbool false => by simp [jsize, dumpJsonVal]
  | .jnum m e => by
    obtain ⟨c, t, hct, -⟩ := dumpJsonNum_head m e
    simp [jsize, dumpJsonVal, hct]
  | .jstr s => by simp [jsize, dumpJsonVal, dumpJsonStr]
  | .jarr [] => by simp [jsize, jsizeL, dumpJsonVal]
  | .jarr (x :: xs) => by
    have h1 := jsize_le_dumpVal (ind + 2) x
    have h2 := jsizeL_le_dumpElems (ind + 2) xs
    simp only [jsize, jsizeL, dumpJsonVal, List.length_cons, List.length_append]
    omega
  | .jobj [] => by simp [jsize, jsizeM, dumpJsonVal]
  | .jobj (kv :: ms) => by
    have h1 := jsize_le_dumpVal (ind + 2) kv.2
    have h2 := jsizeM_le_dumpMembers (ind + 2) ms
    simp only [jsize, jsizeM, dumpJsonVal, List.length_cons, List.length_append]
    omega

theorem jsizeL_le_dumpElems (ind : Nat) (xs : List Json) :
    jsizeL xs ≤ (dumpJsonElems ind xs).length :=
  match xs with
  | [] => by simp [jsizeL, dumpJsonElems]
  | x :: xs => by
    have h1 := jsize_le_dumpVal ind x
    have h2 := jsizeL_le_dumpElems ind xs
    simp only [jsizeL, dumpJsonElems, List.length_cons, List.length_append]
    omega

theorem jsizeM_le_dumpMembers (ind : Nat) (ms : List (List Char × Json)) :
    jsizeM ms ≤ (dumpJsonMembers ind ms).length :=
  match ms with
  | [] => by simp [jsizeM, dumpJsonMembers]
  | kv :: ms => by
    have h1 := jsize_le_dumpVal ind kv.2
    have h2 := jsizeM_le_dumpMembers ind ms
    simp only [jsizeM, dumpJsonMembers, List.length_cons, List.length_append]
    omega

end

theorem parseJsonVal_succ_null (fuel : Nat) (r : List Char) :
    parseJsonVal (fuel + 1) ('n' :: 'u' :: 'l' :: 'l' :: r) = some (.jnull, r) := by
  simp only [parseJsonVal]
  rw [skipJsonWs_cons_not _ _ (by decide)]
  rfl

theorem parseJsonVal_succ_true (fuel : Nat) (r : List Char) :
    parseJsonVal (fuel + 1) ('t' :: 'r' :: 'u' :: 'e' :: r) = some (.jbool true, r) := by
  simp only [parseJsonVal]
  rw [skipJsonWs_cons_not _ _ (by decide)]
  rfl

theorem parseJsonVal_succ_false (fuel : Nat) (r : List Char) :
    parseJsonVal (fuel + 1) ('f' :: 'a' :: 'l' :: 's' :: 'e' :: r) = some (.jbool false, r) := by
  simp only [parseJsonVal]
  rw [skipJsonWs_cons_not _ _ (by decide)]
  rfl

theorem parseJsonVal_succ_str (fuel : Nat) (r : List Char) :
    parseJsonVal (fuel + 1) ('"' :: r)
      = (parseJsonStr r).map (fun p => (.jstr p.1, p.2)) := by
  simp only [parseJsonVal]
  rw [skipJsonWs_cons_not _ _ (by decide)]
  rfl

theorem parseJsonVal_succ_num (fuel : Nat) (c : Char) (r : List Char)
    (hc : c = '-' ∨ isDigitCh c = true) :
    parseJsonVal (fuel + 1) (c :: r) = parseJsonNum (c :: r) := by
  have hws : jsonWs c = false := by
    rcases hc with h | h
    · rw [h]
      decide
    · exact digit_not_ws c h
  have hn : c ≠ 'n' := by
    rcases hc with h | h
    · rw [h]
      decide
    · exact digitCh_ne c 'n' h (by decide)
  have ht : c ≠ 't' := by
    rcases hc with h | h
    · rw [h]
      decide
    · exact digitCh_ne c 't' h (by decide)
  have hf : c ≠ 'f' := by
    rcases hc with h | h
    · rw [h]
      decide
    · exact digitCh_ne c 'f' h (by decide)
  have hq : c ≠ '"' := by
    rcases hc with h | h
    · rw [h]
      decide
    · exact digitCh_ne c '"' h (by decide)
  have hb : c ≠ '[' := by
    rcases hc with h | h
    · rw [h]
      decide
    · exact digitCh_ne c '[' h (by decide)
  have hr : c ≠ '\x7b' := by
    rcases hc with h | h
    · rw [h]
      decide
    · exact digitCh_ne c '\x7b' h (by decide)
  simp only [parseJsonVal]
  rw [skipJsonWs_cons_not _ _ hws]
  split <;> simp_all
  intro h1 h2
  rcases hc with h | h
  · exact absurd h h1
  · rw [h] at h2
    exact Bool.noConfusion h2

theorem parseJsonVal_succ_arr_nil (fuel : Nat) (r r2 : List Char)
    (hskip : skipJsonWs r = ']' :: r2) :
    parseJsonVal (fuel + 1) ('[' :: r) = some (.jarr [], r2) := by
  simp only [parseJsonVal]
  rw [skipJsonWs_cons_not _ _ (by decide)]
  show (match skipJsonWs r with
    | ']' :: r2 => some (Json.jarr [], r2)
    | r2 => (parseJsonElems fuel r2).map
        (fun (p : List Json × List Char) => (Json.jarr p.1, p.2))) = _
  rw [hskip]
  rfl

theorem parseJsonVal_succ_arr_cons (fuel : Nat) (r : List Char) (c : Char) (w : List Char)
    (hskip : skipJsonWs r = c :: w) (hne : c ≠ ']') :
    parseJsonVal (fuel + 1) ('[' :: r)
      = (parseJsonElems fuel (c :: w)).map (fun p => (.jarr p.1, p.2)) := by
  simp only [parseJsonVal]
  rw [skipJsonWs_cons_not _ _ (by decide)]
  show (match skipJsonWs r with
    | ']' :: r2 => some (Json.jarr [], r2)
    | r2 => (parseJsonElems fuel r2).map
        (fun (p : List Json × List Char) => (Json.jarr p.1, p.2))) = _
  rw [hskip]
  split <;> simp_all

theorem parseJsonVal_succ_obj_nil (fuel : Nat) (r r2 : List Char)
    (hskip : skipJsonWs r = '\x7d' :: r2) :
    parseJsonVal (fuel + 1) ('\x7b' :: r) = some (.jobj [], r2) := by
  simp only [parseJsonVal]
  rw [skipJsonWs_cons_not _ _ (by decide)]
  show (match skipJsonWs r with
    | '\x7d' :: r2 => some (Json.jobj [], r2)
    | r2 => (parseJsonMembers fuel r2).map
        (fun (p : List (List Char × Json) × List Char) => (Json.jobj (dedupPairs p.1), p.2))) = _
  rw [hskip]
  rfl

theorem parseJsonVal_succ_obj_cons (fuel : Nat) (r : List Char) (c : Char) (w : List Char)
    (hskip : skipJsonWs r = c :: w) (hne : c ≠ '\x7d') :
    parseJsonVal (fuel + 1) ('\x7b' :: r)
      = (parseJsonMembers fuel (c :: w)).map (fun p => (.jobj (dedupPairs p.1), p.2)) := by
  simp only [parseJsonVal]
  rw [skipJsonWs_cons_not _ _ (by decide)]
  show (match skipJsonWs r with
    | '\x7d' :: r2 => some (Json.jobj [], r2)
    | r2 => (parseJsonMembers fuel r2).map
        (fun (p : List (List Char × Json) × List Char) => (Json.jobj (dedupPairs p.1), p.2))) = _
  rw [hskip]
  split <;> simp_all

/-- Parsing a rendered document (with any fixed indent and a delimiter-headed
    remainder) returns exactly the rendered value, by induction on fuel:
    values, the element loop, and the member loop simultaneously. -/
theorem parseJson_dump_rt (fuel : Nat) :
    (∀ ind (v : Json) rest, JsonWF v → jsize v ≤ fuel → jnumDelim rest = true →
      parseJsonVal fuel (dumpJsonVal ind v ++ rest) = some (v, rest))
    ∧ (∀ ind ind0 (x : Json) (xs : List Json) rest,
        JsonWF x → (∀ y ∈ xs, JsonWF y) → jsize x + 1 + jsizeL xs ≤ fuel →
        jnumDelim rest = true →
        parseJsonElems fuel
          (dumpJsonVal ind x ++ (dumpJsonElems ind xs
            ++ '\n' :: (jIndent ind0 ++ ']' :: rest)))
          = some (x :: xs, rest))
    ∧ (∀ ind ind0 (k : List Char) (v : Json) (ms : List (List Char × Json)) rest,
        JsonWF v → (∀ p ∈ ms, JsonWF p.2) → jsize v + 1 + jsizeM ms ≤ fuel →
        jnumDelim rest = true →
        parseJsonMembers fuel
          (dumpJsonStr k ++ ((':' :: ' ' :: dumpJsonVal ind v)
            ++ (dumpJsonMembers ind ms ++ '\n' :: (jIndent ind0 ++ '\x7d' :: rest))))
          = some ((k, v) :: ms, rest)) := by
  induction fuel with
  | zero =>
    refine ⟨?_, ?_, ?_⟩
    · intro ind v rest _ hsz _
      exact absurd hsz (by have := jsize_pos v; omega)
    · intro ind ind0 x xs rest _ _ hsz _
      exact absurd hsz (by have := jsize_pos x; omega)
    · intro ind ind0 k v ms rest _ _ hsz _
      exact absurd hsz (by have := jsize_pos v; omega)
  | succ fuel ih =>
    obtain ⟨ih1, ih2, ih3⟩ := ih
    refine ⟨?_, ?_, ?_⟩
    · -- values
      intro ind v rest hwf hsz hrest
      cases hwf with
      | wfNull =>
        rw [show dumpJsonVal ind Json.jnull ++ rest
          = 'n' :: 'u' :: 'l' :: 'l' :: rest from rfl]
        exact parseJsonVal_succ_null fuel rest
      | wfBool b =>
        cases b with
        | true =>
          rw [show dumpJsonVal ind (Json.jbool true) ++ rest
            = 't' :: 'r' :: 'u' :: 'e' :: rest from rfl]
          exact parseJsonVal_succ_true fuel rest
        | false =>
          rw [show dumpJsonVal ind (Json.jbool false) ++ rest
            = 'f' :: 'a' :: 'l' :: 's' :: 'e' :: rest from rfl]
          exact parseJsonVal_succ_false fuel rest
      | wfNum m e h0 h1 =>
        rw [show dumpJsonVal ind (Json.jnum m e) ++ rest = dumpJsonNum m e ++ rest from rfl]
        obtain ⟨c, t, hct, hc⟩ := dumpJsonNum_head m e
        rw [hct, List.cons_append, parseJsonVal_succ_num fuel c (t ++ rest) hc,
          ← List.cons_append, ← hct]
        exact parseJsonNum_dump m e h0 h1 rest hrest
      | wfStr s =>
        rw [show dumpJsonVal ind (Json.jstr s) ++ rest
          = '"' :: (((s.map escJsonChar).flatten ++ ['"']) ++ rest) from rfl]
        rw [parseJsonVal_succ_str]
        rw [show ((s.map escJsonChar).flatten ++ ['"']) ++ rest
          = (s.map escJsonChar).flatten ++ '"' :: rest from by simp]
        rw [parseJsonStr_dump]
        rfl
      | wfArr l hl =>
        cases l with
        | nil =>
          rw [show dumpJsonVal ind (Json.jarr []) ++ rest = '[' :: (']' :: rest) from rfl]
          exact parseJsonVal_succ_arr_nil fuel (']' :: rest) rest
            (skipJsonWs_cons_not _ _ (by decide))
        | cons x xs =>
          have hx : JsonWF x := hl x (List.mem_cons_self x xs)
          have hxs : ∀ y ∈ xs, JsonWF y := fun y hy => hl y (List.mem_cons.mpr (Or.inr hy))
          have hsz2 : jsize x + 1 + jsizeL xs ≤ fuel := by
            simp only [jsize, jsizeL] at hsz
            omega
          obtain ⟨c, w, hcw, hcws, hcne, -⟩ := dumpVal_head (ind + 2) x
          have hshape : dumpJsonVal ind (Json.jarr (x :: xs)) ++ rest
              = '[' :: ('\n' :: (jIndent (ind + 2) ++ (dumpJsonVal (ind + 2) x
                  ++ (dumpJsonElems (ind + 2) xs
                    ++ '\n' :: (jIndent ind ++ ']' :: rest))))) := by
            simp [dumpJsonVal, List.append_assoc]
          rw [hshape]
          have hskip : skipJsonWs ('\n' :: (jIndent (ind + 2) ++ (dumpJsonVal (ind + 2) x
                ++ (dumpJsonElems (ind + 2) xs ++ '\n' :: (jIndent ind ++ ']' :: rest)))))
              = c :: (w ++ (dumpJsonElems (ind + 2) xs
                  ++ '\n' :: (jIndent ind ++ ']' :: rest))) := by
            rw [skipJsonWs_cons, if_pos (by decide),
              skipJsonWs_ws_append _ _ (jIndent_ws (ind + 2)), hcw, List.cons_append,
              skipJsonWs_cons_not _ _ hcws]
          rw [parseJsonVal_succ_arr_cons fuel _ c _ hskip hcne]
          rw [show c :: (w ++ (dumpJsonElems (ind + 2) xs
                ++ '\n' :: (jIndent ind ++ ']' :: rest)))
              = dumpJsonVal (ind + 2) x ++ (dumpJsonElems (ind + 2) xs
                ++ '\n' :: (jIndent ind ++ ']' :: rest)) from by rw [hcw, List.cons_append]]
          rw [ih2 (ind + 2) ind x xs rest hx hxs hsz2 hrest]
          rfl
      | wfObj l hnd hl =>
        cases l with
        | nil =>
          rw [show dumpJsonVal ind (Json.jobj []) ++ rest
            = '\x7b' :: ('\x7d' :: rest) from rfl]
          exact parseJsonVal_succ_obj_nil fuel ('\x7d' :: rest) rest
            (skipJsonWs_cons_not _ _ (by decide))
        | cons kv ms =>
          have hv : JsonWF kv.2 := hl kv (List.mem_cons_self kv ms)
          have hms : ∀ p ∈ ms, JsonWF p.2 := fun p hp => hl p (List.mem_cons.mpr (Or.inr hp))
          have hsz2 : jsize kv.2 + 1 + jsizeM ms ≤ fuel := by
            simp only [jsize, jsizeM] at hsz
            omega
          have hINP : dumpJsonStr kv.1 ++ ((':' :: ' ' :: dumpJsonVal (ind + 2) kv.2)
                ++ (dumpJsonMembers (ind + 2) ms ++ '\n' :: (jIndent ind ++ '\x7d' :: rest)))
              = '"' :: (((kv.1.map escJsonChar).flatten ++ ['"'])
                ++ ((':' :: ' ' :: dumpJsonVal (ind + 2) kv.2)
                  ++ (dumpJsonMembers (ind + 2) ms
                    ++ '\n' :: (jIndent ind ++ '\x7d' :: rest)))) := rfl
          have hshape : dumpJsonVal ind (Json.jobj (kv :: ms)) ++ rest
              = '\x7b' :: ('\n' :: (jIndent (ind + 2) ++ (dumpJsonStr kv.1
                  ++ ((':' :: ' ' :: dumpJsonVal (ind + 2) kv.2)
                    ++ (dumpJsonMembers (ind + 2) ms
                      ++ '\n' :: (jIndent ind ++ '\x7d' :: rest)))))) := by
            simp [dumpJsonVal, dumpJsonStr, List.append_assoc]
          rw [hshape]
          have hskip : skipJsonWs ('\n' :: (jIndent (ind + 2) ++ (dumpJsonStr kv.1
                ++ ((':' :: ' ' :: dumpJsonVal (ind + 2) kv.2)
                  ++ (dumpJsonMembers (ind + 2) ms
                    ++ '\n' :: (jIndent ind ++ '\x7d' :: rest))))))
              = '"' :: (((kv.1.map escJsonChar).flatten ++ ['"'])
                ++ ((':' :: ' ' :: dumpJsonVal (ind + 2) kv.2)
                  ++ (dumpJsonMembers (ind + 2) ms
                    ++ '\n' :: (jIndent ind ++ '\x7d' :: rest)))) := by
            rw [skipJsonWs_cons, if_pos (by decide),
              skipJsonWs_ws_append _ _ (jIndent_ws (ind + 2)), hINP,
              skipJsonWs_cons_not _ _ (by decide)]
          rw [parseJsonVal_succ_obj_cons fuel _ '"' _ hskip (by decide)]
          rw [← hINP]
          rw [ih3 (ind + 2) ind kv.1 kv.2 ms rest hv hms hsz2 hrest]
          have hded : dedupPairs ((kv.1, kv.2) :: ms) = (kv.1, kv.2) :: ms :=
            dedupPairs_nodup_id _ (by simpa using hnd)
          simp [hded]
    · -- array element loop
      intro ind ind0 x xs rest hx hxs hsz hrest
      have hposx := jsize_pos x
      have hszx : jsize x ≤ fuel := by omega
      cases xs with
      | nil =>
        have htail : jnumDelim (dumpJsonElems ind ([] : List Json)
            ++ '\n' :: (jIndent ind0 ++ ']' :: rest)) = true := by
          rw [show dumpJsonElems ind ([] : List Json) = [] from rfl, List.nil_append,
            jnumDelim_cons]
          decide
        have h1 := ih1 ind x (dumpJsonElems ind ([] : List Json)
            ++ '\n' :: (jIndent ind0 ++ ']' :: rest)) hx hszx htail
        have hskipT : skipJsonWs (dumpJsonElems ind ([] : List Json)
            ++ '\n' :: (jIndent ind0 ++ ']' :: rest)) = ']' :: rest := by
          rw [show dumpJsonElems ind ([] : List Json) = [] from rfl, List.nil_append,
            skipJsonWs_cons, if_pos (by decide),
            skipJsonWs_ws_append _ _ (jIndent_ws ind0),
            skipJsonWs_cons_not _ _ (by decide)]
        simp only [parseJsonElems, h1, hskipT]
      | cons y ys =>
        have hy : JsonWF y := hxs y (List.mem_cons_self y ys)
        have hys : ∀ z ∈ ys, JsonWF z := fun z hz => hxs z (List.mem_cons.mpr (Or.inr hz))
        have hsz2 : jsize y + 1 + jsizeL ys ≤ fuel := by
          simp only [jsizeL] at hsz
          omega
        have hT : dumpJsonElems ind (y :: ys) ++ '\n' :: (jIndent ind0 ++ ']' :: rest)
            = ',' :: ('\n' :: (jIndent ind ++ (dumpJsonVal ind y
                ++ (dumpJsonElems ind ys ++ '\n' :: (jIndent ind0 ++ ']' :: rest))))) := by
          simp [dumpJsonElems, List.append_assoc]
        have htail : jnumDelim (dumpJsonElems ind (y :: ys)
            ++ '\n' :: (jIndent ind0 ++ ']' :: rest)) = true := by
          rw [hT, jnumDelim_cons]
          decide
        have h1 := ih1 ind x (dumpJsonElems ind (y :: ys)
            ++ '\n' :: (jIndent ind0 ++ ']' :: rest)) hx hszx htail
        have e2 : skipJsonWs (dumpJsonElems ind (y :: ys)
            ++ '\n' :: (jIndent ind0 ++ ']' :: rest))
            = ',' :: ('\n' :: (jIndent ind ++ (dumpJsonVal ind y
                ++ (dumpJsonElems ind ys ++ '\n' :: (jIndent ind0 ++ ']' :: rest))))) := by
          rw [hT]
          exact skipJsonWs_cons_not _ _ (by decide)
        have e3 : skipJsonWs ('\n' :: (jIndent ind ++ (dumpJsonVal ind y
              ++ (dumpJsonElems ind ys ++ '\n' :: (jIndent ind0 ++ ']' :: rest)))))
            = dumpJsonVal ind y
              ++ (dumpJsonElems ind ys ++ '\n' :: (jIndent ind0 ++ ']' :: rest)) := by
          rw [skipJsonWs_cons, if_pos (by decide), skipJsonWs_ws_append _ _ (jIndent_ws ind)]
          obtain ⟨c, w, hcw, hcws, -, -⟩ := dumpVal_head ind y
          rw [hcw, List.cons_append, skipJsonWs_cons_not _ _ hcws, ← List.cons_append, ← hcw]
        have hrec := ih2 ind ind0 y ys rest hy hys hsz2 hrest
        simp only [parseJsonElems, h1, e2, e3, hrec, Option.map_some]
        rfl
    · -- object member loop
      intro ind ind0 k v ms rest hv hms hsz hrest
      have hposv := jsize_pos v
      have hszv : jsize v ≤ fuel := by omega
      have hPdelim : jnumDelim (dumpJsonMembers ind ms
          ++ '\n' :: (jIndent ind0 ++ '\x7d' :: rest)) = true := by
        cases ms with
        | nil =>
          rw [show dumpJsonMembers ind ([] : List (List Char × Json)) = [] from rfl,
            List.nil_append, jnumDelim_cons]
          decide
        | cons p ps =>
          rw [show dumpJsonMembers ind (p :: ps) = ',' :: '\n' :: (jIndent ind
              ++ dumpJsonStr p.1 ++ ':' :: ' ' :: dumpJsonVal ind p.2
              ++ dumpJsonMembers ind ps) from rfl, List.cons_append, jnumDelim_cons]
          decide
      have e1 : skipJsonWs (dumpJsonStr k ++ ((':' :: ' ' :: dumpJsonVal ind v)
            ++ (dumpJsonMembers ind ms ++ '\n' :: (jIndent ind0 ++ '\x7d' :: rest))))
          = '"' :: (((k.map escJsonChar).flatten ++ ['"'])
            ++ ((':' :: ' ' :: dumpJsonVal ind v)
              ++ (dumpJsonMembers ind ms
                ++ '\n' :: (jIndent ind0 ++ '\x7d' :: rest)))) := by
        rw [show dumpJsonStr k ++ ((':' :: ' ' :: dumpJsonVal ind v)
              ++ (dumpJsonMembers ind ms ++ '\n' :: (jIndent ind0 ++ '\x7d' :: rest)))
            = '"' :: (((k.map escJsonChar).flatten ++ ['"'])
              ++ ((':' :: ' ' :: dumpJsonVal ind v)
                ++ (dumpJsonMembers ind ms
                  ++ '\n' :: (jIndent ind0 ++ '\x7d' :: rest)))) from rfl,
          skipJsonWs_cons_not _ _ (by decide)]
      have e2 : parseJsonStr (((k.map escJsonChar).flatten ++ ['"'])
            ++ ((':' :: ' ' :: dumpJsonVal ind v)
              ++ (dumpJsonMembers ind ms ++ '\n' :: (jIndent ind0 ++ '\x7d' :: rest))))
          = some (k, (':' :: ' ' :: dumpJsonVal ind v)
              ++ (dumpJsonMembers ind ms ++ '\n' :: (jIndent ind0 ++ '\x7d' :: rest))) := by
        rw [show ((k.map escJsonChar).flatten ++ ['"'])
              ++ ((':' :: ' ' :: dumpJsonVal ind v)
                ++ (dumpJsonMembers ind ms ++ '\n' :: (jIndent ind0 ++ '\x7d' :: rest)))
            = (k.map escJsonChar).flatten ++ '"' :: ((':' :: ' ' :: dumpJsonVal ind v)
                ++ (dumpJsonMembers ind ms
                  ++ '\n' :: (jIndent ind0 ++ '\x7d' :: rest))) from by simp]
        exact parseJsonStr_dump _ _
      have e3 : skipJsonWs ((':' :: ' ' :: dumpJsonVal ind v)
            ++ (dumpJsonMembers ind ms ++ '\n' :: (jIndent ind0 ++ '\x7d' :: rest)))
          = ':' :: ((' ' :: dumpJsonVal ind v)
              ++ (dumpJsonMembers ind ms ++ '\n' :: (jIndent ind0 ++ '\x7d' :: rest))) := by
        rw [List.cons_append]
        exact skipJsonWs_cons_not _ _ (by decide)
      have e4 : parseJsonVal fuel (skipJsonWs ((' ' :: dumpJsonVal ind v)
            ++ (dumpJsonMembers ind ms ++ '\n' :: (jIndent ind0 ++ '\x7d' :: rest))))
          = some (v, dumpJsonMembers ind ms
              ++ '\n' :: (jIndent ind0 ++ '\x7d' :: rest)) := by
        rw [List.cons_append, skipJsonWs_cons, if_pos (by decide)]
        obtain ⟨c, w, hcw, hcws, -, -⟩ := dumpVal_head ind v
        rw [hcw, List.cons_append, skipJsonWs_cons_not _ _ hcws, ← List.cons_append, ← hcw]
        exact ih1 ind v _ hv hszv hPdelim
      cases ms with
      | nil =>
        have e5 : skipJsonWs (dumpJsonMembers ind ([] : List (List Char × Json))
            ++ '\n' :: (jIndent ind0 ++ '\x7d' :: rest)) = '\x7d' :: rest := by
          rw [show dumpJsonMembers ind ([] : List (List Char × Json)) = [] from rfl,
            List.nil_append, skipJsonWs_cons, if_pos (by decide),
            skipJsonWs_ws_append _ _ (jIndent_ws ind0),
            skipJsonWs_cons_not _ _ (by decide)]
        simp only [parseJsonMembers, e1, e2, e3, e4, e5]
      | cons p ps =>
        have hp : JsonWF p.2 := hms p (List.mem_cons_self p ps)
        have hps : ∀ q ∈ ps, JsonWF q.2 := fun q hq => hms q (List.mem_cons.mpr (Or.inr hq))
        have hsz2 : jsize p.2 + 1 + jsizeM ps ≤ fuel := by
          simp only [jsizeM] at hsz
          omega
        have hT : dumpJsonMembers ind (p :: ps) ++ '\n' :: (jIndent ind0 ++ '\x7d' :: rest)
            = ',' :: ('\n' :: (jIndent ind ++ (dumpJsonStr p.1
                ++ ((':' :: ' ' :: dumpJsonVal ind p.2)
                  ++ (dumpJsonMembers ind ps
                    ++ '\n' :: (jIndent ind0 ++ '\x7d' :: rest)))))) := by
          simp [dumpJsonMembers, dumpJsonStr, List.append_assoc]
        have e5 : skipJsonWs (dumpJsonMembers ind (p :: ps)
            ++ '\n' :: (jIndent ind0 ++ '\x7d' :: rest))
            = ',' :: ('\n' :: (jIndent ind ++ (dumpJsonStr p.1
                ++ ((':' :: ' ' :: dumpJsonVal ind p.2)
                  ++ (dumpJsonMembers ind ps
                    ++ '\n' :: (jIndent ind0 ++ '\x7d' :: rest)))))) := by
          rw [hT]
          exact skipJsonWs_cons_not _ _ (by decide)
        have e6 : skipJsonWs ('\n' :: (jIndent ind ++ (dumpJsonStr p.1
              ++ ((':' :: ' ' :: dumpJsonVal ind p.2)
                ++ (dumpJsonMembers ind ps ++ '\n' :: (jIndent ind0 ++ '\x7d' :: rest))))))
            = dumpJsonStr p.1 ++ ((':' :: ' ' :: dumpJsonVal ind p.2)
                ++ (dumpJsonMembers ind ps
                  ++ '\n' :: (jIndent ind0 ++ '\x7d' :: rest))) := by
          rw [skipJsonWs_cons, if_pos (by decide), skipJsonWs_ws_append _ _ (jIndent_ws ind)]
          rw [show dumpJsonStr p.1 ++ ((':' :: ' ' :: dumpJsonVal ind p.2)
                ++ (dumpJsonMembers ind ps ++ '\n' :: (jIndent ind0 ++ '\x7d' :: rest)))
              = '"' :: (((p.1.map escJsonChar).flatten ++ ['"'])
                ++ ((':' :: ' ' :: dumpJsonVal ind p.2)
                  ++ (dumpJsonMembers ind ps
                    ++ '\n' :: (jIndent ind0 ++ '\x7d' :: rest)))) from rfl]
          exact skipJsonWs_cons_not _ _ (by decide)
        have hrec := ih3 ind ind0 p.1 p.2 ps rest hp hps hsz2 hrest
        simp only [parseJsonMembers, e1, e2, e3, e4, e5, e6, hrec, Option.map_some]
        simp

/-- `json.loads` inverts `json.dumps(·, indent=2, ensure_ascii=False)` on every
    value `json.loads` can produce. -/
theorem jsonLoads_dumps (v : Json) (hwf : JsonWF v) : jsonLoads (jsonDumps2 v) = some v := by
  have hsz : jsize v ≤ (dumpJsonVal 0 v).length + 1 :=
    le_trans (jsize_le_dumpVal 0 v) (Nat.le_succ _)
  have h1 := (parseJson_dump_rt ((dumpJsonVal 0 v).length + 1)).1 0 v [] hwf hsz rfl
  rw [List.append_nil] at h1
  simp only [jsonLoads, jsonDumps2, h1]
  rfl

/-- **C2.**  When the concatenated body bytes decode as UTF-8 and the decoded
    text parses as JSON, the renderer returns that value re-serialized by
    `json.dumps(obj, indent=2, ensure_ascii=False)`, and parsing the rendered
    string recovers exactly the value parsed from the original text. -/
theorem C2_json_body_roundtrip (m : SBMessage) (chunks : List (List Nat))
    (s : List Char) (v : Json) (hm : m.body = .ok chunks)
    (hdec : utf8Decode chunks.flatten = some s)
    (hjson : jsonLoads s = some v) :
    safe_body_to_str m = jsonDumps2 v ∧ jsonLoads (jsonDumps2 v) = some v := by
  constructor
  · rw [safe_body_to_str_ok m chunks hm]
    simp only [hdec, hjson]
  · exact jsonLoads_dumps v (jsonLoads_wf s v hjson)

/-- Concrete instance of C2: the body `b"[1,2]"` decodes to `"[1,2]"`, parses
    as the array `[1, 2]`, is re-rendered as the indented document
    `"[\n  1,\n  2\n]"`, and that document parses back to the same array. -/
theorem C2_witness :
    ({ body := Except.ok [[91, 49, 44, 50, 93]] } : SBMessage).body
        = .ok [[91, 49, 44, 50, 93]]
    ∧ utf8Decode ([[91, 49, 44, 50, 93]] : List (List Nat)).flatten
        = some "[1,2]".toList
    ∧ jsonLoads "[1,2]".toList = some (Json.jarr [Json.jnum 1 0, Json.jnum 2 0])
    ∧ safe_body_to_str ({ body := Except.ok [[91, 49, 44, 50, 93]] } : SBMessage)
        = jsonDumps2 (Json.jarr [Json.jnum 1 0, Json.jnum 2 0])
    ∧ jsonLoads (jsonDumps2 (Json.jarr [Json.jnum 1 0, Json.jnum 2 0]))
        = some (Json.jarr [Json.jnum 1 0, Json.jnum 2 0]) := by
  refine ⟨rfl, by rfl, by rfl, ?_⟩
  exact C2_json_body_roundtrip _ [[91, 49, 44, 50, 93]] "[1,2]".toList
    (Json.jarr [Json.jnum 1 0, Json.jnum 2 0]) rfl (by rfl) (by rfl)
